import Mathlib

/-!
Verification of the glib `Variant` subsystem (src/glib/src/variant.rs).

The Rust code is a binding over the GVariant value algebra: an immutable,
dynamically typed container with a textual type-signature language, typed
conversion traits (`StaticVariantType` / `ToVariant` / `FromVariant`), and a
canonical serialized form.  This file gives a shallow embedding of that core:

* `VariantTy` — the type-signature algebra (primitives, array, maybe, tuple,
  dict-entry, variant, plus the indefinite forms used in subtype checks);
* `VariantValue` — the immutable tagged value tree, with classification,
  container access, byteswap;
* `RustTy` / `NativeValue` — the closed universe of native Rust types
  implementing the conversion traits in variant.rs, and their values;
* the conversion functions mirroring each trait impl, with Rust panics made
  explicit as an `Except Panic` effect;
* a `Variant` record pairing a value with its backing serialized bytes, for
  the serialization-facing operations (`data`, `size`, `store`,
  `normal_form`).

Functions whose body lives in the C library (behind `ffi::…` calls) rather
than in variant.rs are modelled from the specification; their doc comments
say so explicitly.  Everything written in Rust in variant.rs (guards,
asserts, decode loops, trait impls) is translated directly.
-/

mutual
/-- GVariant type signatures.  The definite forms mirror the grammar of
`VariantTy` type strings (primitive codes, `m`/`a` element forms, tuples,
dict entries, `v`); the last three constructors are the indefinite forms
(`r` = any tuple, `*` = any type, `?` = any basic type) that appear in the
subtype checks `VariantTy::TUPLE` and `VariantTy::DICT_ENTRY` used by the
tuple and `DictEntry` `FromVariant` impls. -/
inductive VariantTy where
  | bool
  | byte
  | int16
  | uint16
  | int32
  | uint32
  | int64
  | uint64
  | double
  | string
  | objectPath
  | signature
  | variant
  | maybe (t : VariantTy)
  | array (t : VariantTy)
  | tuple (ts : VariantTyList)
  | dictEntry (k v : VariantTy)
  | anyTuple
  | any
  | anyBasic
/-- Lists of type signatures (the members of a tuple signature). -/
inductive VariantTyList where
  | nil
  | cons (h : VariantTy) (t : VariantTyList)
end

mutual
def VariantTy.beq : VariantTy → VariantTy → Bool
  | .bool, b => match b with | .bool => true | _ => false
  | .byte, b => match b with | .byte => true | _ => false
  | .int16, b => match b with | .int16 => true | _ => false
  | .uint16, b => match b with | .uint16 => true | _ => false
  | .int32, b => match b with | .int32 => true | _ => false
  | .uint32, b => match b with | .uint32 => true | _ => false
  | .int64, b => match b with | .int64 => true | _ => false
  | .uint64, b => match b with | .uint64 => true | _ => false
  | .double, b => match b with | .double => true | _ => false
  | .string, b => match b with | .string => true | _ => false
  | .objectPath, b => match b with | .objectPath => true | _ => false
  | .signature, b => match b with | .signature => true | _ => false
  | .variant, b => match b with | .variant => true | _ => false
  | .maybe x, b => match b with | .maybe y => x.beq y | _ => false
  | .array x, b => match b with | .array y => x.beq y | _ => false
  | .tuple x, b => match b with | .tuple y => x.beq y | _ => false
  | .dictEntry xk xv, b =>
    match b with | .dictEntry yk yv => xk.beq yk && xv.beq yv | _ => false
  | .anyTuple, b => match b with | .anyTuple => true | _ => false
  | .any, b => match b with | .any => true | _ => false
  | .anyBasic, b => match b with | .anyBasic => true | _ => false
def VariantTyList.beq : VariantTyList → VariantTyList → Bool
  | .nil, b => match b with | .nil => true | _ => false
  | .cons x xs, b => match b with | .cons y ys => x.beq y && xs.beq ys | _ => false
end

mutual
theorem VariantTy.beq_iff : ∀ a b : VariantTy, a.beq b = true ↔ a = b
  | .bool, b => by cases b <;> simp [VariantTy.beq]
  | .byte, b => by cases b <;> simp [VariantTy.beq]
  | .int16, b => by cases b <;> simp [VariantTy.beq]
  | .uint16, b => by cases b <;> simp [VariantTy.beq]
  | .int32, b => by cases b <;> simp [VariantTy.beq]
  | .uint32, b => by cases b <;> simp [VariantTy.beq]
  | .int64, b => by cases b <;> simp [VariantTy.beq]
  | .uint64, b => by cases b <;> simp [VariantTy.beq]
  | .double, b => by cases b <;> simp [VariantTy.beq]
  | .string, b => by cases b <;> simp [VariantTy.beq]
  | .objectPath, b => by cases b <;> simp [VariantTy.beq]
  | .signature, b => by cases b <;> simp [VariantTy.beq]
  | .variant, b => by cases b <;> simp [VariantTy.beq]
  | .maybe x, b => by cases b <;> simp [VariantTy.beq, VariantTy.beq_iff x]
  | .array x, b => by cases b <;> simp [VariantTy.beq, VariantTy.beq_iff x]
  | .tuple x, b => by cases b <;> simp [VariantTy.beq, VariantTyList.beqList_iff x]
  | .dictEntry xk xv, b => by
      cases b <;> simp [VariantTy.beq, VariantTy.beq_iff xk, VariantTy.beq_iff xv]
  | .anyTuple, b => by cases b <;> simp [VariantTy.beq]
  | .any, b => by cases b <;> simp [VariantTy.beq]
  | .anyBasic, b => by cases b <;> simp [VariantTy.beq]
theorem VariantTyList.beqList_iff : ∀ a b : VariantTyList, a.beq b = true ↔ a = b
  | .nil, b => by cases b <;> simp [VariantTyList.beq]
  | .cons x xs, b => by
      cases b <;> simp [VariantTyList.beq, VariantTy.beq_iff x, VariantTyList.beqList_iff xs]
end

instance : DecidableEq VariantTy := fun a b =>
  decidable_of_iff _ (VariantTy.beq_iff a b)

instance : DecidableEq VariantTyList := fun a b =>
  decidable_of_iff _ (VariantTyList.beqList_iff a b)

mutual
/-- Character rendering of a type signature, as produced by
`VariantTy::as_str` — one code letter per primitive, `m`/`a` element
markers, bracketed tuples and dict entries. -/
def VariantTy.chars : VariantTy → List Char
  | .bool => ['b']
  | .byte => ['y']
  | .int16 => ['n']
  | .uint16 => ['q']
  | .int32 => ['i']
  | .uint32 => ['u']
  | .int64 => ['x']
  | .uint64 => ['t']
  | .double => ['d']
  | .string => ['s']
  | .objectPath => ['o']
  | .signature => ['g']
  | .variant => ['v']
  | .maybe t => 'm' :: t.chars
  | .array t => 'a' :: t.chars
  | .tuple ts => '(' :: (ts.chars ++ [')'])
  | .dictEntry k v => '{' :: (k.chars ++ (v.chars ++ ['}']))
  | .anyTuple => ['r']
  | .any => ['*']
  | .anyBasic => ['?']
def VariantTyList.chars : VariantTyList → List Char
  | .nil => []
  | .cons h t => h.chars ++ t.chars
end

/-- The canonical type string of a signature (`VariantTy::as_str`). -/
def VariantTy.typeString (t : VariantTy) : String :=
  String.mk t.chars

/-- True for the basic (non-container, non-variant) types, and for the
indefinite basic type `?` itself. -/
def VariantTy.isBasic : VariantTy → Bool
  | .bool | .byte | .int16 | .uint16 | .int32 | .uint32 | .int64 | .uint64
  | .double | .string | .objectPath | .signature | .anyBasic => true
  | _ => false

mutual
/-- True when the signature contains no indefinite form. -/
def VariantTy.isDefinite : VariantTy → Bool
  | .maybe t => t.isDefinite
  | .array t => t.isDefinite
  | .tuple ts => ts.isDefinite
  | .dictEntry k v => k.isDefinite && v.isDefinite
  | .anyTuple => false
  | .any => false
  | .anyBasic => false
  | _ => true
def VariantTyList.isDefinite : VariantTyList → Bool
  | .nil => true
  | .cons h t => h.isDefinite && t.isDefinite
end

mutual
/-- Modelled from the spec: the subtype relation of the GVariant type algebra
(the C side's `g_variant_type_is_subtype_of`, reached through
`ffi::g_variant_is_of_type`; variant.rs only declares it).  Spec §3: a
signature is a subtype of the generic container tags (`a*`, `(*)` alias `r`,
`{?*}`, `*`, `?`), and otherwise subtyping is componentwise, collapsing to
strict equality on definite signatures. -/
def VariantTy.isSubtypeOf : VariantTy → VariantTy → Bool
  | .bool, b => match b with | .bool => true | .any => true | .anyBasic => true | _ => false
  | .byte, b => match b with | .byte => true | .any => true | .anyBasic => true | _ => false
  | .int16, b => match b with | .int16 => true | .any => true | .anyBasic => true | _ => false
  | .uint16, b => match b with | .uint16 => true | .any => true | .anyBasic => true | _ => false
  | .int32, b => match b with | .int32 => true | .any => true | .anyBasic => true | _ => false
  | .uint32, b => match b with | .uint32 => true | .any => true | .anyBasic => true | _ => false
  | .int64, b => match b with | .int64 => true | .any => true | .anyBasic => true | _ => false
  | .uint64, b => match b with | .uint64 => true | .any => true | .anyBasic => true | _ => false
  | .double, b => match b with | .double => true | .any => true | .anyBasic => true | _ => false
  | .string, b => match b with | .string => true | .any => true | .anyBasic => true | _ => false
  | .objectPath, b =>
    match b with | .objectPath => true | .any => true | .anyBasic => true | _ => false
  | .signature, b =>
    match b with | .signature => true | .any => true | .anyBasic => true | _ => false
  | .variant, b => match b with | .variant => true | .any => true | _ => false
  | .maybe x, b => match b with | .maybe y => x.isSubtypeOf y | .any => true | _ => false
  | .array x, b => match b with | .array y => x.isSubtypeOf y | .any => true | _ => false
  | .tuple xs, b =>
    match b with
    | .tuple ys => xs.isSubtypeOfList ys
    | .anyTuple => true
    | .any => true
    | _ => false
  | .dictEntry xk xv, b =>
    match b with
    | .dictEntry yk yv => xk.isSubtypeOf yk && xv.isSubtypeOf yv
    | .any => true
    | _ => false
  | .anyTuple, b => match b with | .anyTuple => true | .any => true | _ => false
  | .any, b => match b with | .any => true | _ => false
  | .anyBasic, b => match b with | .anyBasic => true | .any => true | _ => false
def VariantTyList.isSubtypeOfList : VariantTyList → VariantTyList → Bool
  | .nil, b => match b with | .nil => true | _ => false
  | .cons x xs, b =>
    match b with
    | .cons y ys => x.isSubtypeOf y && xs.isSubtypeOfList ys
    | _ => false
end

mutual
theorem VariantTy.isSubtypeOf_refl : ∀ a : VariantTy, a.isSubtypeOf a = true
  | .bool | .byte | .int16 | .uint16 | .int32 | .uint32 | .int64 | .uint64
  | .double | .string | .objectPath | .signature | .variant
  | .anyTuple | .any | .anyBasic => by simp [VariantTy.isSubtypeOf, VariantTy.isBasic]
  | .maybe a => by simp [VariantTy.isSubtypeOf, VariantTy.isSubtypeOf_refl a]
  | .array a => by simp [VariantTy.isSubtypeOf, VariantTy.isSubtypeOf_refl a]
  | .tuple a => by simp [VariantTy.isSubtypeOf, VariantTyList.isSubtypeOfList_refl a]
  | .dictEntry k v => by
      simp [VariantTy.isSubtypeOf, VariantTy.isSubtypeOf_refl k,
        VariantTy.isSubtypeOf_refl v]
theorem VariantTyList.isSubtypeOfList_refl :
    ∀ a : VariantTyList, a.isSubtypeOfList a = true
  | .nil => by simp [VariantTyList.isSubtypeOfList]
  | .cons a as => by
      simp [VariantTyList.isSubtypeOfList, VariantTy.isSubtypeOf_refl a,
        VariantTyList.isSubtypeOfList_refl as]
end

mutual
theorem VariantTy.isSubtypeOf_definite :
    ∀ b a : VariantTy, b.isDefinite = true → (a.isSubtypeOf b = true ↔ a = b)
  | .bool, a => by intro _; cases a <;> simp [VariantTy.isSubtypeOf]
  | .byte, a => by intro _; cases a <;> simp [VariantTy.isSubtypeOf]
  | .int16, a => by intro _; cases a <;> simp [VariantTy.isSubtypeOf]
  | .uint16, a => by intro _; cases a <;> simp [VariantTy.isSubtypeOf]
  | .int32, a => by intro _; cases a <;> simp [VariantTy.isSubtypeOf]
  | .uint32, a => by intro _; cases a <;> simp [VariantTy.isSubtypeOf]
  | .int64, a => by intro _; cases a <;> simp [VariantTy.isSubtypeOf]
  | .uint64, a => by intro _; cases a <;> simp [VariantTy.isSubtypeOf]
  | .double, a => by intro _; cases a <;> simp [VariantTy.isSubtypeOf]
  | .string, a => by intro _; cases a <;> simp [VariantTy.isSubtypeOf]
  | .objectPath, a => by intro _; cases a <;> simp [VariantTy.isSubtypeOf]
  | .signature, a => by intro _; cases a <;> simp [VariantTy.isSubtypeOf]
  | .variant, a => by intro _; cases a <;> simp [VariantTy.isSubtypeOf]
  | .maybe b, a => by
      intro hd
      cases a <;> simp [VariantTy.isSubtypeOf]
      exact VariantTy.isSubtypeOf_definite b _ (by simpa [VariantTy.isDefinite] using hd)
  | .array b, a => by
      intro hd
      cases a <;> simp [VariantTy.isSubtypeOf]
      exact VariantTy.isSubtypeOf_definite b _ (by simpa [VariantTy.isDefinite] using hd)
  | .tuple b, a => by
      intro hd
      cases a <;> simp [VariantTy.isSubtypeOf]
      exact VariantTyList.isSubtypeOfList_definite b _
        (by simpa [VariantTy.isDefinite] using hd)
  | .dictEntry bk bv, a => by
      intro hd
      have hkv : bk.isDefinite = true ∧ bv.isDefinite = true := by
        simpa [VariantTy.isDefinite] using hd
      cases a <;> simp [VariantTy.isSubtypeOf]
      rw [VariantTy.isSubtypeOf_definite bk _ hkv.1,
        VariantTy.isSubtypeOf_definite bv _ hkv.2]
  | .anyTuple, a => by intro hd; simp [VariantTy.isDefinite] at hd
  | .any, a => by intro hd; simp [VariantTy.isDefinite] at hd
  | .anyBasic, a => by intro hd; simp [VariantTy.isDefinite] at hd
theorem VariantTyList.isSubtypeOfList_definite :
    ∀ b a : VariantTyList, b.isDefinite = true →
      (a.isSubtypeOfList b = true ↔ a = b)
  | .nil, a => by intro _; cases a <;> simp [VariantTyList.isSubtypeOfList]
  | .cons b bs, a => by
      intro hd
      have hp : b.isDefinite = true ∧ bs.isDefinite = true := by
        simpa [VariantTyList.isDefinite] using hd
      cases a <;> simp [VariantTyList.isSubtypeOfList]
      rw [VariantTy.isSubtypeOf_definite b _ hp.1,
        VariantTyList.isSubtypeOfList_definite bs _ hp.2]
end

mutual
/-- Node count of a signature, used as parser fuel. -/
def VariantTy.nodes : VariantTy → Nat
  | .maybe t => t.nodes + 1
  | .array t => t.nodes + 1
  | .tuple ts => ts.nodes + 1
  | .dictEntry k v => k.nodes + v.nodes + 1
  | _ => 1
def VariantTyList.nodes : VariantTyList → Nat
  | .nil => 1
  | .cons h t => h.nodes + t.nodes
end

mutual
theorem VariantTy.nodes_pos : ∀ t : VariantTy, 1 ≤ t.nodes
  | .bool | .byte | .int16 | .uint16 | .int32 | .uint32 | .int64 | .uint64
  | .double | .string | .objectPath | .signature | .variant
  | .anyTuple | .any | .anyBasic => by simp [VariantTy.nodes]
  | .maybe t => by simp [VariantTy.nodes]
  | .array t => by simp [VariantTy.nodes]
  | .tuple ts => by simp [VariantTy.nodes]
  | .dictEntry k v => by simp [VariantTy.nodes]
theorem VariantTyList.nodesList_pos : ∀ ts : VariantTyList, 1 ≤ ts.nodes
  | .nil => by simp [VariantTyList.nodes]
  | .cons h t => by
      have := VariantTy.nodes_pos h
      simp [VariantTyList.nodes]
      omega
end

/-- Lookup table from a primitive code letter to its signature. -/
def parsePrim : Char → Option VariantTy
  | 'b' => some .bool
  | 'y' => some .byte
  | 'n' => some .int16
  | 'q' => some .uint16
  | 'i' => some .int32
  | 'u' => some .uint32
  | 'x' => some .int64
  | 't' => some .uint64
  | 'd' => some .double
  | 's' => some .string
  | 'o' => some .objectPath
  | 'g' => some .signature
  | 'v' => some .variant
  | 'r' => some .anyTuple
  | '*' => some .any
  | '?' => some .anyBasic
  | _ => none

mutual
/-- Fuel-indexed parser of type strings, the inverse of `VariantTy.chars`;
it witnesses that the rendering of signatures is a code without ambiguity
(so equality of type strings is equality of signatures). -/
def parseTy : Nat → List Char → Option (VariantTy × List Char)
  | 0, _ => none
  | _ + 1, [] => none
  | fuel + 1, c :: r =>
    if c = 'm' then (parseTy fuel r).map (fun p => (.maybe p.1, p.2))
    else if c = 'a' then (parseTy fuel r).map (fun p => (.array p.1, p.2))
    else if c = '(' then (parseTyList fuel r).map (fun p => (.tuple p.1, p.2))
    else if c = '{' then
      match parseTy fuel r with
      | some (k, r1) =>
        match parseTy fuel r1 with
        | some (v, r2) =>
          match r2 with
          | '}' :: r3 => some (.dictEntry k v, r3)
          | _ => none
        | none => none
      | none => none
    else
      match parsePrim c with
      | some t => some (t, r)
      | none => none
/-- Parses a `)`-terminated run of type signatures (a tuple body). -/
def parseTyList : Nat → List Char → Option (VariantTyList × List Char)
  | 0, _ => none
  | fuel + 1, cs =>
    if cs.head? = some ')' then some (.nil, cs.tail)
    else
      match parseTy fuel cs with
      | some (t, r1) =>
        match parseTyList fuel r1 with
        | some (ts, r2) => some (.cons t ts, r2)
        | none => none
      | none => none
end

/-- Every rendered signature starts with a character other than `)`. -/
theorem VariantTy.chars_head :
    ∀ t : VariantTy, ∃ c cs, t.chars = c :: cs ∧ c ≠ ')' := by
  intro t
  cases t <;> exact ⟨_, _, rfl, by decide⟩

mutual
theorem parseTy_chars :
    ∀ (t : VariantTy) (rest : List Char) (fuel : Nat), t.nodes ≤ fuel →
      parseTy fuel (t.chars ++ rest) = some (t, rest)
  | .bool, rest, fuel => by
      intro hf
      cases fuel with
      | zero => simp [VariantTy.nodes] at hf
      | succ f => simp [VariantTy.chars, parseTy, parsePrim]
  | .byte, rest, fuel => by
      intro hf
      cases fuel with
      | zero => simp [VariantTy.nodes] at hf
      | succ f => simp [VariantTy.chars, parseTy, parsePrim]
  | .int16, rest, fuel => by
      intro hf
      cases fuel with
      | zero => simp [VariantTy.nodes] at hf
      | succ f => simp [VariantTy.chars, parseTy, parsePrim]
  | .uint16, rest, fuel => by
      intro hf
      cases fuel with
      | zero => simp [VariantTy.nodes] at hf
      | succ f => simp [VariantTy.chars, parseTy, parsePrim]
  | .int32, rest, fuel => by
      intro hf
      cases fuel with
      | zero => simp [VariantTy.nodes] at hf
      | succ f => simp [VariantTy.chars, parseTy, parsePrim]
  | .uint32, rest, fuel => by
      intro hf
      cases fuel with
      | zero => simp [VariantTy.nodes] at hf
      | succ f => simp [VariantTy.chars, parseTy, parsePrim]
  | .int64, rest, fuel => by
      intro hf
      cases fuel with
      | zero => simp [VariantTy.nodes] at hf
      | succ f => simp [VariantTy.chars, parseTy, parsePrim]
  | .uint64, rest, fuel => by
      intro hf
      cases fuel with
      | zero => simp [VariantTy.nodes] at hf
      | succ f => simp [VariantTy.chars, parseTy, parsePrim]
  | .double, rest, fuel => by
      intro hf
      cases fuel with
      | zero => simp [VariantTy.nodes] at hf
      | succ f => simp [VariantTy.chars, parseTy, parsePrim]
  | .string, rest, fuel => by
      intro hf
      cases fuel with
      | zero => simp [VariantTy.nodes] at hf
      | succ f => simp [VariantTy.chars, parseTy, parsePrim]
  | .objectPath, rest, fuel => by
      intro hf
      cases fuel with
      | zero => simp [VariantTy.nodes] at hf
      | succ f => simp [VariantTy.chars, parseTy, parsePrim]
  | .signature, rest, fuel => by
      intro hf
      cases fuel with
      | zero => simp [VariantTy.nodes] at hf
      | succ f => simp [VariantTy.chars, parseTy, parsePrim]
  | .variant, rest, fuel => by
      intro hf
      cases fuel with
      | zero => simp [VariantTy.nodes] at hf
      | succ f => simp [VariantTy.chars, parseTy, parsePrim]
  | .anyTuple, rest, fuel => by
      intro hf
      cases fuel with
      | zero => simp [VariantTy.nodes] at hf
      | succ f => simp [VariantTy.chars, parseTy, parsePrim]
  | .any, rest, fuel => by
      intro hf
      cases fuel with
      | zero => simp [VariantTy.nodes] at hf
      | succ f => simp [VariantTy.chars, parseTy, parsePrim]
  | .anyBasic, rest, fuel => by
      intro hf
      cases fuel with
      | zero => simp [VariantTy.nodes] at hf
      | succ f => simp [VariantTy.chars, parseTy, parsePrim]
  | .maybe t, rest, fuel => by
      intro hf
      cases fuel with
      | zero => simp [VariantTy.nodes] at hf
      | succ f =>
        have ht : t.nodes ≤ f := by simp [VariantTy.nodes] at hf; omega
        simp [VariantTy.chars, parseTy, parseTy_chars t rest f ht]
  | .array t, rest, fuel => by
      intro hf
      cases fuel with
      | zero => simp [VariantTy.nodes] at hf
      | succ f =>
        have ht : t.nodes ≤ f := by simp [VariantTy.nodes] at hf; omega
        simp [VariantTy.chars, parseTy, parseTy_chars t rest f ht]
  | .tuple ts, rest, fuel => by
      intro hf
      cases fuel with
      | zero => simp [VariantTy.nodes] at hf
      | succ f =>
        have ht : ts.nodes ≤ f := by simp [VariantTy.nodes] at hf; omega
        simp [VariantTy.chars, parseTy, parseTyList_chars ts rest f ht]
  | .dictEntry k v, rest, fuel => by
      intro hf
      cases fuel with
      | zero => simp [VariantTy.nodes] at hf
      | succ f =>
        have hkn : k.nodes ≤ f := by
          have := VariantTy.nodes_pos v
          simp [VariantTy.nodes] at hf; omega
        have hvn : v.nodes ≤ f := by
          have := VariantTy.nodes_pos k
          simp [VariantTy.nodes] at hf; omega
        have hk := parseTy_chars k (v.chars ++ ('}' :: rest)) f hkn
        have hv := parseTy_chars v ('}' :: rest) f hvn
        simp [VariantTy.chars, parseTy, hk, hv]
theorem parseTyList_chars :
    ∀ (ts : VariantTyList) (rest : List Char) (fuel : Nat), ts.nodes ≤ fuel →
      parseTyList fuel (ts.chars ++ (')' :: rest)) = some (ts, rest)
  | .nil, rest, fuel => by
      intro hf
      cases fuel with
      | zero => simp [VariantTyList.nodes] at hf
      | succ f => simp [VariantTyList.chars, parseTyList]
  | .cons h t, rest, fuel => by
      intro hf
      cases fuel with
      | zero =>
        have := VariantTy.nodes_pos h
        simp [VariantTyList.nodes] at hf
        omega
      | succ f =>
        have hhn : h.nodes ≤ f := by
          have := VariantTyList.nodesList_pos t
          simp [VariantTyList.nodes] at hf; omega
        have htn : t.nodes ≤ f := by
          have := VariantTy.nodes_pos h
          simp [VariantTyList.nodes] at hf; omega
        have hh := parseTy_chars h (t.chars ++ (')' :: rest)) f hhn
        have ht := parseTyList_chars t rest f htn
        obtain ⟨c, cs, hc, hcne⟩ := VariantTy.chars_head h
        rw [VariantTyList.chars, List.append_assoc, hc]
        simp only [List.cons_append]
        simp only [parseTyList, List.head?_cons]
        rw [if_neg (by simp [hcne])]
        rw [← List.cons_append, ← hc, hh]
        simp [ht]
end

/-- Rendering a signature to its character list is injective. -/
theorem VariantTy.chars_inj (a b : VariantTy) (h : a.chars = b.chars) : a = b := by
  have ha := parseTy_chars a [] (a.nodes + b.nodes) (by omega)
  have hb := parseTy_chars b [] (a.nodes + b.nodes) (by omega)
  rw [h] at ha
  rw [ha] at hb
  simpa using hb

/-- Two signatures are equal exactly when their canonical type strings are
equal byte for byte. -/
theorem VariantTy.typeString_inj_iff (a b : VariantTy) :
    a.typeString = b.typeString ↔ a = b := by
  constructor
  · intro h
    exact VariantTy.chars_inj a b (congrArg String.data h)
  · intro h
    rw [h]

/-- Classification of a `Variant` (the glib `VariantClass` enum returned by
`Variant::classify`). -/
inductive VariantClass where
  | boolean
  | byte
  | int16
  | uint16
  | int32
  | uint32
  | int64
  | uint64
  | double
  | string
  | objectPath
  | signature
  | variant
  | maybe
  | array
  | tuple
  | dictEntry
  deriving DecidableEq

mutual
/-- A GVariant value: the immutable tagged tree behind a `Variant`.  Fixed
width scalars carry their bit pattern (`byte` 8 bits, `int16`/`uint16` 16,
`int32`/`uint32` 32, `int64`/`uint64`/`double` 64; signed values are stored
as two's-complement patterns, `double` as its IEEE-754 bit pattern, which is
what serialization and byteswap act on).  Containers carry their children;
`array` and the two `maybe` forms also carry the element signature so an
empty container still has a definite type. -/
inductive VariantValue where
  | bool (b : Bool)
  | byte (n : Nat)
  | int16 (n : Nat)
  | uint16 (n : Nat)
  | int32 (n : Nat)
  | uint32 (n : Nat)
  | int64 (n : Nat)
  | uint64 (n : Nat)
  | double (bits : Nat)
  | string (s : String)
  | objectPath (s : String)
  | signature (s : String)
  | array (elem : VariantTy) (cs : VariantValueList)
  | tuple (cs : VariantValueList)
  | dictEntry (k v : VariantValue)
  | maybeJust (elem : VariantTy) (c : VariantValue)
  | maybeNothing (elem : VariantTy)
  | variant (c : VariantValue)
/-- Lists of variant values (children of a container). -/
inductive VariantValueList where
  | nil
  | cons (h : VariantValue) (t : VariantValueList)
end

mutual
def VariantValue.beq : VariantValue → VariantValue → Bool
  | .bool x, b => match b with | .bool y => x == y | _ => false
  | .byte x, b => match b with | .byte y => x == y | _ => false
  | .int16 x, b => match b with | .int16 y => x == y | _ => false
  | .uint16 x, b => match b with | .uint16 y => x == y | _ => false
  | .int32 x, b => match b with | .int32 y => x == y | _ => false
  | .uint32 x, b => match b with | .uint32 y => x == y | _ => false
  | .int64 x, b => match b with | .int64 y => x == y | _ => false
  | .uint64 x, b => match b with | .uint64 y => x == y | _ => false
  | .double x, b => match b with | .double y => x == y | _ => false
  | .string x, b => match b with | .string y => x == y | _ => false
  | .objectPath x, b => match b with | .objectPath y => x == y | _ => false
  | .signature x, b => match b with | .signature y => x == y | _ => false
  | .array xe xs, b =>
    match b with | .array ye ys => xe.beq ye && xs.beq ys | _ => false
  | .tuple xs, b => match b with | .tuple ys => xs.beq ys | _ => false
  | .dictEntry xk xv, b =>
    match b with | .dictEntry yk yv => xk.beq yk && xv.beq yv | _ => false
  | .maybeJust xe xc, b =>
    match b with | .maybeJust ye yc => xe.beq ye && xc.beq yc | _ => false
  | .maybeNothing xe, b => match b with | .maybeNothing ye => xe.beq ye | _ => false
  | .variant xc, b => match b with | .variant yc => xc.beq yc | _ => false
def VariantValueList.beq : VariantValueList → VariantValueList → Bool
  | .nil, b => match b with | .nil => true | _ => false
  | .cons x xs, b => match b with | .cons y ys => x.beq y && xs.beq ys | _ => false
end

mutual
theorem VariantValue.beqVal_iff : ∀ a b : VariantValue, a.beq b = true ↔ a = b
  | .bool x, b => by cases b <;> simp [VariantValue.beq]
  | .byte x, b => by cases b <;> simp [VariantValue.beq]
  | .int16 x, b => by cases b <;> simp [VariantValue.beq]
  | .uint16 x, b => by cases b <;> simp [VariantValue.beq]
  | .int32 x, b => by cases b <;> simp [VariantValue.beq]
  | .uint32 x, b => by cases b <;> simp [VariantValue.beq]
  | .int64 x, b => by cases b <;> simp [VariantValue.beq]
  | .uint64 x, b => by cases b <;> simp [VariantValue.beq]
  | .double x, b => by cases b <;> simp [VariantValue.beq]
  | .string x, b => by cases b <;> simp [VariantValue.beq]
  | .objectPath x, b => by cases b <;> simp [VariantValue.beq]
  | .signature x, b => by cases b <;> simp [VariantValue.beq]
  | .array xe xs, b => by
      cases b <;> simp [VariantValue.beq, VariantTy.beq_iff xe, VariantValueList.beqValList_iff xs]
  | .tuple xs, b => by cases b <;> simp [VariantValue.beq, VariantValueList.beqValList_iff xs]
  | .dictEntry xk xv, b => by
      cases b <;> simp [VariantValue.beq, VariantValue.beqVal_iff xk, VariantValue.beqVal_iff xv]
  | .maybeJust xe xc, b => by
      cases b <;> simp [VariantValue.beq, VariantTy.beq_iff xe, VariantValue.beqVal_iff xc]
  | .maybeNothing xe, b => by
      cases b <;> simp [VariantValue.beq, VariantTy.beq_iff xe]
  | .variant xc, b => by cases b <;> simp [VariantValue.beq, VariantValue.beqVal_iff xc]
theorem VariantValueList.beqValList_iff : ∀ a b : VariantValueList, a.beq b = true ↔ a = b
  | .nil, b => by cases b <;> simp [VariantValueList.beq]
  | .cons x xs, b => by
      cases b <;>
        simp [VariantValueList.beq, VariantValue.beqVal_iff x, VariantValueList.beqValList_iff xs]
end

instance : DecidableEq VariantValue := fun a b =>
  decidable_of_iff _ (VariantValue.beqVal_iff a b)

instance : DecidableEq VariantValueList := fun a b =>
  decidable_of_iff _ (VariantValueList.beqValList_iff a b)

mutual
/-- The signature of a value (`Variant::type_`, `g_variant_get_type`):
determined at construction, definite for well-formed values. -/
def VariantValue.typeOf : VariantValue → VariantTy
  | .bool _ => .bool
  | .byte _ => .byte
  | .int16 _ => .int16
  | .uint16 _ => .uint16
  | .int32 _ => .int32
  | .uint32 _ => .uint32
  | .int64 _ => .int64
  | .uint64 _ => .uint64
  | .double _ => .double
  | .string _ => .string
  | .objectPath _ => .objectPath
  | .signature _ => .signature
  | .array e _ => .array e
  | .tuple cs => .tuple cs.typesOf
  | .dictEntry k v => .dictEntry k.typeOf v.typeOf
  | .maybeJust e _ => .maybe e
  | .maybeNothing e => .maybe e
  | .variant _ => .variant
def VariantValueList.typesOf : VariantValueList → VariantTyList
  | .nil => .nil
  | .cons h t => .cons h.typeOf t.typesOf
end

/-- Modelled from the spec: `Variant::classify` (`ffi::g_variant_classify`)
is the deterministic mapping from the signature's leading token to the
classification (spec §4.2). -/
def VariantValue.classify : VariantValue → VariantClass
  | .bool _ => .boolean
  | .byte _ => .byte
  | .int16 _ => .int16
  | .uint16 _ => .uint16
  | .int32 _ => .int32
  | .uint32 _ => .uint32
  | .int64 _ => .int64
  | .uint64 _ => .uint64
  | .double _ => .double
  | .string _ => .string
  | .objectPath _ => .objectPath
  | .signature _ => .signature
  | .array _ _ => .array
  | .tuple _ => .tuple
  | .dictEntry _ _ => .dictEntry
  | .maybeJust _ _ => .maybe
  | .maybeNothing _ => .maybe
  | .variant _ => .variant

/-- Modelled from the spec: `Variant::is_container`
(`ffi::g_variant_is_container`).  Spec §4.2: true for the array, tuple,
dict-entry and maybe classifications; false for all scalars and for the
"variant" classification itself. -/
def VariantValue.isContainer (v : VariantValue) : Bool :=
  match v.classify with
  | .array => true
  | .tuple => true
  | .dictEntry => true
  | .maybe => true
  | _ => false

def VariantValueList.toList : VariantValueList → List VariantValue
  | .nil => []
  | .cons h t => h :: t.toList

def VariantValueList.length : VariantValueList → Nat
  | .nil => 0
  | .cons _ t => t.length + 1

/-- Modelled from the spec: the children of a container value, in order —
array/tuple elements, the dict-entry key then value, the zero or one payload
of a maybe (spec §3, §4.3).  The child list of a boxed variant or of a
scalar is empty here; every container accessor in variant.rs guards with
`is_container` before reaching it. -/
def VariantValue.childValues : VariantValue → List VariantValue
  | .array _ cs => cs.toList
  | .tuple cs => cs.toList
  | .dictEntry k v => [k, v]
  | .maybeJust _ c => [c]
  | .maybeNothing _ => []
  | _ => []

/-- A Rust panic (a failed `assert!` or `.unwrap()`), made explicit. -/
inductive Panic where
  | panic
  deriving DecidableEq

/-- The error returned from `try_get` on a `Variant` when the expected type
does not match the actual type (struct `VariantTypeMismatchError`). -/
structure VariantTypeMismatchError where
  actual : VariantTy
  expected : VariantTy
  deriving DecidableEq

/-- `Variant::n_children`: asserts `is_container`, then counts children. -/
def VariantValue.n_children (v : VariantValue) : Except Panic Nat :=
  if v.isContainer then .ok v.childValues.length else .error .panic

/-- `Variant::child_value`: asserts `is_container` and the index bound, then
reads the child (`ffi::g_variant_get_child_value`). -/
def VariantValue.child_value (v : VariantValue) (index : Nat) : Except Panic VariantValue :=
  if v.isContainer = false then .error .panic
  else if h : index < v.childValues.length then .ok (v.childValues.get ⟨index, h⟩)
  else .error .panic

/-- `Variant::try_child_value`: `None` unless `self` is a container and the
index is in bounds. -/
def VariantValue.try_child_value (v : VariantValue) (index : Nat) : Option VariantValue :=
  if v.isContainer && decide (index < v.childValues.length) then v.childValues.get? index
  else none

/-- `Variant::str`: borrows the string payload when the type string is one
of `s`, `o`, `g`; `None` otherwise. -/
def VariantValue.str : VariantValue → Option String
  | .string s => some s
  | .objectPath s => some s
  | .signature s => some s
  | _ => none

mutual
/-- Well-formed values: scalar bit patterns within their width, container
children typed by the container's element signature, all stored element
signatures definite, and dict-entry keys of basic type (only a basic type
can key a dict entry). -/
def VariantValue.wf : VariantValue → Bool
  | .bool _ => true
  | .byte n => decide (n < 2 ^ 8)
  | .int16 n => decide (n < 2 ^ 16)
  | .uint16 n => decide (n < 2 ^ 16)
  | .int32 n => decide (n < 2 ^ 32)
  | .uint32 n => decide (n < 2 ^ 32)
  | .int64 n => decide (n < 2 ^ 64)
  | .uint64 n => decide (n < 2 ^ 64)
  | .double b => decide (b < 2 ^ 64)
  | .string _ => true
  | .objectPath _ => true
  | .signature _ => true
  | .array e cs => e.isDefinite && cs.allTyped e && cs.wfList
  | .tuple cs => cs.wfList
  | .dictEntry k v => k.typeOf.isBasic && k.wf && v.wf
  | .maybeJust e c => e.isDefinite && c.typeOf.beq e && c.wf
  | .maybeNothing e => e.isDefinite
  | .variant c => c.wf
def VariantValueList.wfList : VariantValueList → Bool
  | .nil => true
  | .cons h t => h.wf && t.wfList
def VariantValueList.allTyped : VariantValueList → VariantTy → Bool
  | .nil, _ => true
  | .cons h t, e => h.typeOf.beq e && t.allTyped e
end

mutual
theorem VariantValue.wf_typeOf_definite :
    ∀ v : VariantValue, v.wf = true → v.typeOf.isDefinite = true
  | .bool _ | .byte _ | .int16 _ | .uint16 _ | .int32 _ | .uint32 _
  | .int64 _ | .uint64 _ | .double _ | .string _ | .objectPath _
  | .signature _ => by
      intro _; simp [VariantValue.typeOf, VariantTy.isDefinite]
  | .array e cs => by
      intro h
      simp [VariantValue.wf] at h
      simp [VariantValue.typeOf, VariantTy.isDefinite, h.1]
  | .tuple cs => by
      intro h
      simp [VariantValue.wf] at h
      simp [VariantValue.typeOf, VariantTy.isDefinite,
        VariantValueList.wfList_typesOf_definite cs h]
  | .dictEntry k v => by
      intro h
      simp [VariantValue.wf] at h
      simp [VariantValue.typeOf, VariantTy.isDefinite,
        VariantValue.wf_typeOf_definite k h.1.2, VariantValue.wf_typeOf_definite v h.2]
  | .maybeJust e c => by
      intro h
      simp [VariantValue.wf] at h
      simp [VariantValue.typeOf, VariantTy.isDefinite, h.1]
  | .maybeNothing e => by
      intro h
      simp [VariantValue.wf] at h
      simp [VariantValue.typeOf, VariantTy.isDefinite, h]
  | .variant c => by
      intro _; simp [VariantValue.typeOf, VariantTy.isDefinite]
theorem VariantValueList.wfList_typesOf_definite :
    ∀ cs : VariantValueList, cs.wfList = true → cs.typesOf.isDefinite = true
  | .nil => by intro _; simp [VariantValueList.typesOf, VariantTyList.isDefinite]
  | .cons h t => by
      intro hw
      simp [VariantValueList.wfList] at hw
      simp [VariantValueList.typesOf, VariantTyList.isDefinite,
        VariantValue.wf_typeOf_definite h hw.1,
        VariantValueList.wfList_typesOf_definite t hw.2]
end

mutual
/-- The closed universe of native Rust types implementing
`StaticVariantType` / `ToVariant` / `FromVariant` in variant.rs: the
numeric primitives and `bool` (impl_numeric and the bool impl), `()`,
`String`/`str`, `Variant` itself, `Option<T>`, `Vec<T>`/slices,
`HashMap<K, V, H>`, `BTreeMap<K, V>`, `DictEntry<K, V>`, and the
macro-generated tuples. -/
inductive RustTy where
  | u8
  | i16
  | u16
  | i32
  | u32
  | i64
  | u64
  | f64
  | bool
  | unit
  | string
  | variant
  | option (t : RustTy)
  | vec (t : RustTy)
  | hashMap (k v : RustTy)
  | bTreeMap (k v : RustTy)
  | dictEntry (k v : RustTy)
  | tuple (ts : RustTyList)
/-- Lists of Rust types (tuple fields). -/
inductive RustTyList where
  | nil
  | cons (h : RustTy) (t : RustTyList)
end

/-- The interned `VariantTy::VARDICT` constant, `a{sv}`. -/
def VariantTy.VARDICT : VariantTy := .array (.dictEntry .string .variant)

/-- The free function `static_variant_mapping<K, V>`: `VARDICT` when the
key/value signatures are exactly `s` and `v`, otherwise the concatenated
`a{KV}` signature. -/
def staticVariantMapping (kt vt : VariantTy) : VariantTy :=
  if kt.beq .string && vt.beq .variant then VariantTy.VARDICT
  else .array (.dictEntry kt vt)

theorem staticVariantMapping_eq (kt vt : VariantTy) :
    staticVariantMapping kt vt = .array (.dictEntry kt vt) := by
  rw [staticVariantMapping]
  rcases hk : kt.beq .string with _ | _ <;> rcases hv : vt.beq .variant with _ | _ <;>
    simp_all [VariantTy.beq_iff, VariantTy.VARDICT]

mutual
/-- `StaticVariantType::static_variant_type`, per impl in variant.rs:
primitives map to their code, `()` to the unit tuple, `Option` to maybe,
`Vec`/slices to array, the two map types through `static_variant_mapping`,
`DictEntry` to a dict-entry signature, tuples to the concatenation of their
field signatures, and `Variant` to `v`. -/
def RustTy.staticVariantType : RustTy → VariantTy
  | .u8 => .byte
  | .i16 => .int16
  | .u16 => .uint16
  | .i32 => .int32
  | .u32 => .uint32
  | .i64 => .int64
  | .u64 => .uint64
  | .f64 => .double
  | .bool => .bool
  | .unit => .tuple .nil
  | .string => .string
  | .variant => .variant
  | .option t => .maybe t.staticVariantType
  | .vec t => .array t.staticVariantType
  | .hashMap k v => staticVariantMapping k.staticVariantType v.staticVariantType
  | .bTreeMap k v => staticVariantMapping k.staticVariantType v.staticVariantType
  | .dictEntry k v => .dictEntry k.staticVariantType v.staticVariantType
  | .tuple ts => .tuple ts.staticList
def RustTyList.staticList : RustTyList → VariantTyList
  | .nil => .nil
  | .cons h t => .cons h.staticVariantType t.staticList
end

mutual
theorem RustTy.static_definite :
    ∀ T : RustTy, T.staticVariantType.isDefinite = true
  | .u8 | .i16 | .u16 | .i32 | .u32 | .i64 | .u64 | .f64 | .bool | .string
  | .variant => by simp [RustTy.staticVariantType, VariantTy.isDefinite]
  | .unit => by
      simp [RustTy.staticVariantType, VariantTy.isDefinite, VariantTyList.isDefinite]
  | .option t => by
      simp [RustTy.staticVariantType, VariantTy.isDefinite, RustTy.static_definite t]
  | .vec t => by
      simp [RustTy.staticVariantType, VariantTy.isDefinite, RustTy.static_definite t]
  | .hashMap k v => by
      simp [RustTy.staticVariantType, staticVariantMapping_eq, VariantTy.isDefinite,
        RustTy.static_definite k, RustTy.static_definite v]
  | .bTreeMap k v => by
      simp [RustTy.staticVariantType, staticVariantMapping_eq, VariantTy.isDefinite,
        RustTy.static_definite k, RustTy.static_definite v]
  | .dictEntry k v => by
      simp [RustTy.staticVariantType, VariantTy.isDefinite,
        RustTy.static_definite k, RustTy.static_definite v]
  | .tuple ts => by
      simp [RustTy.staticVariantType, VariantTy.isDefinite,
        RustTyList.staticList_definite ts]
theorem RustTyList.staticList_definite :
    ∀ ts : RustTyList, ts.staticList.isDefinite = true
  | .nil => by simp [RustTyList.staticList, VariantTyList.isDefinite]
  | .cons h t => by
      simp [RustTyList.staticList, VariantTyList.isDefinite,
        RustTy.static_definite h, RustTyList.staticList_definite t]
end

/-- `Variant::is::<T>`: `ffi::g_variant_is_of_type(self, T::static_variant_type())`. -/
def VariantValue.is (v : VariantValue) (T : RustTy) : Bool :=
  v.typeOf.isSubtypeOf T.staticVariantType

/-- C1: for every Variant value `v` and every type `T` implementing
`StaticVariantType`, `v.is::<T>()` returns true if and only if `v`'s type
signature equals `T::static_variant_type()`, byte for byte as canonical
type strings. -/
theorem c1_is_iff_typeString_eq (v : VariantValue) (T : RustTy) :
    v.is T = true ↔ v.typeOf.typeString = T.staticVariantType.typeString := by
  rw [VariantValue.is,
    VariantTy.isSubtypeOf_definite _ _ (RustTy.static_definite T)]
  exact (VariantTy.typeString_inj_iff _ _).symm

/-- C2: `is_container()` is true exactly when the classification is array,
tuple, dict-entry or maybe; in particular it is false for every scalar
classification and for the "variant" classification. -/
theorem c2_is_container_iff_classify (v : VariantValue) :
    v.isContainer = true ↔
      (v.classify = .array ∨ v.classify = .tuple ∨
        v.classify = .dictEntry ∨ v.classify = .maybe) := by
  cases v <;> simp [VariantValue.isContainer, VariantValue.classify]

/-- C5: `child_value(index)` panics when `self` is not a container or the
index is out of range, and under the precondition that `self` is a
container with `index < n_children()` it returns the child at `index`
without panicking. -/
theorem c5_child_value_spec (v : VariantValue) (i : Nat) :
    (v.isContainer = false ∨ v.childValues.length ≤ i →
      v.child_value i = .error .panic) ∧
    (∀ (hc : v.isContainer = true) (hi : i < v.childValues.length),
      v.child_value i = .ok (v.childValues.get ⟨i, hi⟩)) := by
  constructor
  · intro h
    rcases h with h | h
    · simp [VariantValue.child_value, h]
    · rw [VariantValue.child_value]
      rcases hC : v.isContainer with _ | _
      · simp
      · simp only [Bool.true_eq_false, if_false]
        rw [dif_neg (by omega)]
  · intro hc hi
    rw [VariantValue.child_value, if_neg (by simp [hc]), dif_pos hi]

/-- Witness for C5 at concrete inputs: reading index 0 of a one-element
boolean array succeeds, and reading index 0 of a `u32` scalar panics. -/
theorem c5_child_value_spec_witness :
    (VariantValue.array .bool (.cons (.bool true) .nil)).child_value 0 =
      .ok (.bool true) ∧
    (VariantValue.uint32 7).child_value 0 = .error .panic := by
  constructor
  · have h := (c5_child_value_spec
      (VariantValue.array .bool (.cons (.bool true) .nil)) 0).2 (by decide) (by
        simp [VariantValue.childValues, VariantValueList.toList])
    simpa [VariantValue.childValues, VariantValueList.toList] using h
  · exact (c5_child_value_spec (VariantValue.uint32 7) 0).1 (Or.inl (by decide))

mutual
/-- Native Rust values of the types in `RustTy`.  Fixed-width integers are
carried as their bit patterns (signed ones as two's complement), `f64` as
its IEEE-754 bit pattern; both map types are carried as their key/value
sequence in iteration order. -/
inductive NativeValue where
  | u8 (n : Nat)
  | i16 (n : Nat)
  | u16 (n : Nat)
  | i32 (n : Nat)
  | u32 (n : Nat)
  | i64 (n : Nat)
  | u64 (n : Nat)
  | f64 (bits : Nat)
  | bool (b : Bool)
  | unit
  | string (s : String)
  | variant (v : VariantValue)
  | none
  | some (x : NativeValue)
  | vec (xs : NativeValueList)
  | map (entries : NativePairList)
  | dictEntry (k v : NativeValue)
  | tuple (xs : NativeValueList)
/-- Lists of native values (`Vec` contents, tuple fields). -/
inductive NativeValueList where
  | nil
  | cons (h : NativeValue) (t : NativeValueList)
/-- Key/value sequences (map contents in iteration order). -/
inductive NativePairList where
  | nil
  | cons (k v : NativeValue) (t : NativePairList)
end

mutual
def NativeValue.beq : NativeValue → NativeValue → Bool
  | .u8 x, b => match b with | .u8 y => x == y | _ => false
  | .i16 x, b => match b with | .i16 y => x == y | _ => false
  | .u16 x, b => match b with | .u16 y => x == y | _ => false
  | .i32 x, b => match b with | .i32 y => x == y | _ => false
  | .u32 x, b => match b with | .u32 y => x == y | _ => false
  | .i64 x, b => match b with | .i64 y => x == y | _ => false
  | .u64 x, b => match b with | .u64 y => x == y | _ => false
  | .f64 x, b => match b with | .f64 y => x == y | _ => false
  | .bool x, b => match b with | .bool y => x == y | _ => false
  | .unit, b => match b with | .unit => true | _ => false
  | .string x, b => match b with | .string y => x == y | _ => false
  | .variant x, b => match b with | .variant y => x.beq y | _ => false
  | .none, b => match b with | .none => true | _ => false
  | .some x, b => match b with | .some y => x.beq y | _ => false
  | .vec x, b => match b with | .vec y => x.beq y | _ => false
  | .map x, b => match b with | .map y => x.beq y | _ => false
  | .dictEntry xk xv, b =>
    match b with | .dictEntry yk yv => xk.beq yk && xv.beq yv | _ => false
  | .tuple x, b => match b with | .tuple y => x.beq y | _ => false
def NativeValueList.beq : NativeValueList → NativeValueList → Bool
  | .nil, b => match b with | .nil => true | _ => false
  | .cons x xs, b => match b with | .cons y ys => x.beq y && xs.beq ys | _ => false
def NativePairList.beq : NativePairList → NativePairList → Bool
  | .nil, b => match b with | .nil => true | _ => false
  | .cons xk xv xs, b =>
    match b with | .cons yk yv ys => xk.beq yk && xv.beq yv && xs.beq ys | _ => false
end

mutual
theorem NativeValue.beqNative_iff : ∀ a b : NativeValue, a.beq b = true ↔ a = b
  | .u8 x, b => by cases b <;> simp [NativeValue.beq]
  | .i16 x, b => by cases b <;> simp [NativeValue.beq]
  | .u16 x, b => by cases b <;> simp [NativeValue.beq]
  | .i32 x, b => by cases b <;> simp [NativeValue.beq]
  | .u32 x, b => by cases b <;> simp [NativeValue.beq]
  | .i64 x, b => by cases b <;> simp [NativeValue.beq]
  | .u64 x, b => by cases b <;> simp [NativeValue.beq]
  | .f64 x, b => by cases b <;> simp [NativeValue.beq]
  | .bool x, b => by cases b <;> simp [NativeValue.beq]
  | .unit, b => by cases b <;> simp [NativeValue.beq]
  | .string x, b => by cases b <;> simp [NativeValue.beq]
  | .variant x, b => by
      cases b <;> simp [NativeValue.beq, VariantValue.beqVal_iff x]
  | .none, b => by cases b <;> simp [NativeValue.beq]
  | .some x, b => by cases b <;> simp [NativeValue.beq, NativeValue.beqNative_iff x]
  | .vec x, b => by cases b <;> simp [NativeValue.beq, NativeValueList.beqNativeList_iff x]
  | .map x, b => by cases b <;> simp [NativeValue.beq, NativePairList.beqPairs_iff x]
  | .dictEntry xk xv, b => by
      cases b <;> simp [NativeValue.beq, NativeValue.beqNative_iff xk, NativeValue.beqNative_iff xv]
  | .tuple x, b => by cases b <;> simp [NativeValue.beq, NativeValueList.beqNativeList_iff x]
theorem NativeValueList.beqNativeList_iff : ∀ a b : NativeValueList, a.beq b = true ↔ a = b
  | .nil, b => by cases b <;> simp [NativeValueList.beq]
  | .cons x xs, b => by
      cases b <;> simp [NativeValueList.beq, NativeValue.beqNative_iff x, NativeValueList.beqNativeList_iff xs]
theorem NativePairList.beqPairs_iff : ∀ a b : NativePairList, a.beq b = true ↔ a = b
  | .nil, b => by cases b <;> simp [NativePairList.beq]
  | .cons xk xv xs, b => by
      cases b <;> simp [NativePairList.beq, NativeValue.beqNative_iff xk,
        NativeValue.beqNative_iff xv, NativePairList.beqPairs_iff xs, and_assoc]
end

instance : DecidableEq NativeValue := fun a b =>
  decidable_of_iff _ (NativeValue.beqNative_iff a b)

instance : DecidableEq NativeValueList := fun a b =>
  decidable_of_iff _ (NativeValueList.beqNativeList_iff a b)

instance : DecidableEq NativePairList := fun a b =>
  decidable_of_iff _ (NativePairList.beqPairs_iff a b)

def NativeValueList.allP (p : NativeValue → Bool) : NativeValueList → Bool
  | .nil => true
  | .cons h t => p h && NativeValueList.allP p t

def NativePairList.allP (pk pv : NativeValue → Bool) : NativePairList → Bool
  | .nil => true
  | .cons k v t => pk k && pv v && NativePairList.allP pk pv t

/-- True when the pair list has no repeated key (the `HashMap`/`BTreeMap`
invariant). -/
def NativePairList.containsKey : NativePairList → NativeValue → Bool
  | .nil, _ => false
  | .cons k _ t, x => k.beq x || NativePairList.containsKey t x

def NativePairList.nodupKeys : NativePairList → Bool
  | .nil => true
  | .cons k _ t => !(NativePairList.containsKey t k) && NativePairList.nodupKeys t

/-- Map `insert`: replaces the value of an existing key in place, otherwise
appends the new entry. -/
def NativePairList.insert : NativePairList → NativeValue → NativeValue → NativePairList
  | .nil, k, v => .cons k v .nil
  | .cons k0 v0 t, k, v =>
    if k0.beq k then .cons k0 v t else .cons k0 v0 (NativePairList.insert t k v)

mutual
/-- Typing of native values: `hasType T x` says the Rust value `x` inhabits
the Rust type `T` (bit patterns within width, children typed componentwise,
maps keyed without duplicates, boxed variants well formed). -/
def NativeValue.hasType : RustTy → NativeValue → Bool
  | .u8, x => match x with | .u8 n => decide (n < 2 ^ 8) | _ => false
  | .i16, x => match x with | .i16 n => decide (n < 2 ^ 16) | _ => false
  | .u16, x => match x with | .u16 n => decide (n < 2 ^ 16) | _ => false
  | .i32, x => match x with | .i32 n => decide (n < 2 ^ 32) | _ => false
  | .u32, x => match x with | .u32 n => decide (n < 2 ^ 32) | _ => false
  | .i64, x => match x with | .i64 n => decide (n < 2 ^ 64) | _ => false
  | .u64, x => match x with | .u64 n => decide (n < 2 ^ 64) | _ => false
  | .f64, x => match x with | .f64 n => decide (n < 2 ^ 64) | _ => false
  | .bool, x => match x with | .bool _ => true | _ => false
  | .unit, x => match x with | .unit => true | _ => false
  | .string, x => match x with | .string _ => true | _ => false
  | .variant, x => match x with | .variant v => v.wf | _ => false
  | .option t, x =>
    match x with
    | .none => true
    | .some y => NativeValue.hasType t y
    | _ => false
  | .vec t, x =>
    match x with
    | .vec xs => NativeValueList.allP (fun y => NativeValue.hasType t y) xs
    | _ => false
  | .hashMap kT vT, x =>
    match x with
    | .map es =>
      kT.staticVariantType.isBasic &&
        (NativePairList.allP (fun a => NativeValue.hasType kT a)
          (fun b => NativeValue.hasType vT b) es && es.nodupKeys)
    | _ => false
  | .bTreeMap kT vT, x =>
    match x with
    | .map es =>
      kT.staticVariantType.isBasic &&
        (NativePairList.allP (fun a => NativeValue.hasType kT a)
          (fun b => NativeValue.hasType vT b) es && es.nodupKeys)
    | _ => false
  | .dictEntry kT vT, x =>
    match x with
    | .dictEntry a b =>
      kT.staticVariantType.isBasic &&
        (NativeValue.hasType kT a && NativeValue.hasType vT b)
    | _ => false
  | .tuple ts, x =>
    match x with
    | .tuple xs => NativeValue.hasTypes ts xs
    | _ => false
def NativeValue.hasTypes : RustTyList → NativeValueList → Bool
  | .nil, xs => match xs with | .nil => true | _ => false
  | .cons t ts, xs =>
    match xs with
    | .cons x rest => NativeValue.hasType t x && NativeValue.hasTypes ts rest
    | _ => false
end

def NativeValueList.mapP (f : NativeValue → VariantValue) : NativeValueList → VariantValueList
  | .nil => .nil
  | .cons h t => .cons (f h) (NativeValueList.mapP f t)

def NativePairList.mapPairs (f : NativeValue → NativeValue → VariantValue) :
    NativePairList → VariantValueList
  | .nil => .nil
  | .cons k v t => .cons (f k v) (NativePairList.mapPairs f t)

mutual
/-- `ToVariant::to_variant`, per impl in variant.rs: numerics and `bool`
wrap their payload with the matching signature; `()` builds the empty tuple;
`String`/`str` build a string value; `Variant::from_variant` boxes;
`Option` builds a maybe via `Variant::from_maybe`; `Vec`/slices build an
array of the element signature; the map impls build an array of
`DictEntry::new(k, v).to_variant()` children (an empty map is the empty
array of the entry signature); `DictEntry` builds a dict entry; tuples
build a tuple of their encoded fields.  Off-type inputs (which the trait
dispatch of Rust makes unreachable) are mapped to the unit value. -/
def NativeValue.toVariant : RustTy → NativeValue → VariantValue
  | .u8, x => match x with | .u8 n => .byte n | _ => .tuple .nil
  | .i16, x => match x with | .i16 n => .int16 n | _ => .tuple .nil
  | .u16, x => match x with | .u16 n => .uint16 n | _ => .tuple .nil
  | .i32, x => match x with | .i32 n => .int32 n | _ => .tuple .nil
  | .u32, x => match x with | .u32 n => .uint32 n | _ => .tuple .nil
  | .i64, x => match x with | .i64 n => .int64 n | _ => .tuple .nil
  | .u64, x => match x with | .u64 n => .uint64 n | _ => .tuple .nil
  | .f64, x => match x with | .f64 n => .double n | _ => .tuple .nil
  | .bool, x => match x with | .bool b => .bool b | _ => .tuple .nil
  | .unit, _ => .tuple .nil
  | .string, x => match x with | .string s => .string s | _ => .tuple .nil
  | .variant, x => match x with | .variant v => .variant v | _ => .tuple .nil
  | .option t, x =>
    match x with
    | .none => .maybeNothing t.staticVariantType
    | .some y => .maybeJust t.staticVariantType (NativeValue.toVariant t y)
    | _ => .tuple .nil
  | .vec t, x =>
    match x with
    | .vec xs =>
      .array t.staticVariantType
        (NativeValueList.mapP (fun y => NativeValue.toVariant t y) xs)
    | _ => .tuple .nil
  | .hashMap kT vT, x =>
    match x with
    | .map es =>
      .array (.dictEntry kT.staticVariantType vT.staticVariantType)
        (NativePairList.mapPairs
          (fun a b =>
            .dictEntry (NativeValue.toVariant kT a) (NativeValue.toVariant vT b)) es)
    | _ => .tuple .nil
  | .bTreeMap kT vT, x =>
    match x with
    | .map es =>
      .array (.dictEntry kT.staticVariantType vT.staticVariantType)
        (NativePairList.mapPairs
          (fun a b =>
            .dictEntry (NativeValue.toVariant kT a) (NativeValue.toVariant vT b)) es)
    | _ => .tuple .nil
  | .dictEntry kT vT, x =>
    match x with
    | .dictEntry a b =>
      .dictEntry (NativeValue.toVariant kT a) (NativeValue.toVariant vT b)
    | _ => .tuple .nil
  | .tuple ts, x =>
    match x with
    | .tuple xs => .tuple (NativeValue.toVariantList ts xs)
    | _ => .tuple .nil
def NativeValue.toVariantList : RustTyList → NativeValueList → VariantValueList
  | .nil, _ => .nil
  | .cons t ts, xs =>
    match xs with
    | .cons x rest => .cons (NativeValue.toVariant t x) (NativeValue.toVariantList ts rest)
    | .nil => .nil
end

instance {ε α : Type} [DecidableEq ε] [DecidableEq α] : DecidableEq (Except ε α) := fun x y =>
  match x, y with
  | .ok a, .ok b => if h : a = b then .isTrue (by rw [h]) else .isFalse (by simp [h])
  | .error a, .error b => if h : a = b then .isTrue (by rw [h]) else .isFalse (by simp [h])
  | .ok _, .error _ => .isFalse (by simp)
  | .error _, .ok _ => .isFalse (by simp)

/-- The decode loop of `Vec::from_variant`: decodes each child in order with
the element decoder, stopping at the first `None` (no partial vectors); a
panic inside an element decode propagates. -/
def decodeVecLoop (d : VariantValue → Except Panic (Option NativeValue)) :
    List VariantValue → Except Panic (Option NativeValueList)
  | [] => .ok (Option.some .nil)
  | c :: cs =>
    match d c with
    | .error p => .error p
    | .ok Option.none => .ok Option.none
    | .ok (Option.some x) =>
      match decodeVecLoop d cs with
      | .error p => .error p
      | .ok Option.none => .ok Option.none
      | .ok (Option.some xs) => .ok (Option.some (.cons x xs))

/-- The decode loop shared by `HashMap::from_variant` and
`BTreeMap::from_variant`: for each entry child, reads `child_value(0)` and
`child_value(1)` (panicking when the entry is not a container with two
children, exactly as the source's `entry.child_value(_)` asserts do),
decodes them, and inserts into the accumulated map; the first failed decode
aborts with `None`. -/
def decodeMapLoop (dk dv : VariantValue → Except Panic (Option NativeValue)) :
    List VariantValue → NativePairList → Except Panic (Option NativePairList)
  | [], acc => .ok (Option.some acc)
  | entry :: rest, acc =>
    match entry.child_value 0 with
    | .error p => .error p
    | .ok kc =>
      match dk kc with
      | .error p => .error p
      | .ok Option.none => .ok Option.none
      | .ok (Option.some kx) =>
        match entry.child_value 1 with
        | .error p => .error p
        | .ok vc =>
          match dv vc with
          | .error p => .error p
          | .ok Option.none => .ok Option.none
          | .ok (Option.some vx) => decodeMapLoop dk dv rest (acc.insert kx vx)

mutual
/-- `FromVariant::from_variant`, per impl in variant.rs.  Numerics, `bool`,
`()` and `Variant` guard with `is::<Self>` (equivalently: the value's
constructor carries exactly the static signature) and read their payload;
`String` goes through `Variant::str` (so `s`, `o` and `g` typed values all
decode); `Option` guards `is::<Self>`, then wraps what the inner decode
returns; `Vec` guards only `is_container` and runs the all-or-nothing
element loop; both map impls guard `is_container` and run the entry loop;
`DictEntry` guards `is_subtype_of(VariantTy::DICT_ENTRY)` and reads
`child_value(0)`/`child_value(1)`; tuples guard
`is_subtype_of(VariantTy::TUPLE)` and read fields through `try_child_get`.
Rust panics surface as `Except.error`. -/
def fromVariant : RustTy → VariantValue → Except Panic (Option NativeValue)
  | .u8, v => .ok (match v with | .byte n => Option.some (.u8 n) | _ => Option.none)
  | .i16, v => .ok (match v with | .int16 n => Option.some (.i16 n) | _ => Option.none)
  | .u16, v => .ok (match v with | .uint16 n => Option.some (.u16 n) | _ => Option.none)
  | .i32, v => .ok (match v with | .int32 n => Option.some (.i32 n) | _ => Option.none)
  | .u32, v => .ok (match v with | .uint32 n => Option.some (.u32 n) | _ => Option.none)
  | .i64, v => .ok (match v with | .int64 n => Option.some (.i64 n) | _ => Option.none)
  | .u64, v => .ok (match v with | .uint64 n => Option.some (.u64 n) | _ => Option.none)
  | .f64, v => .ok (match v with | .double n => Option.some (.f64 n) | _ => Option.none)
  | .bool, v => .ok (match v with | .bool b => Option.some (.bool b) | _ => Option.none)
  | .unit, v => .ok (match v with | .tuple .nil => Option.some .unit | _ => Option.none)
  | .string, v => .ok (v.str.map NativeValue.string)
  | .variant, v => .ok (match v with | .variant c => Option.some (.variant c) | _ => Option.none)
  | .option t, v =>
    match v with
    | .maybeJust e c =>
      if e.beq t.staticVariantType then
        match fromVariant t c with
        | .error p => .error p
        | .ok (Option.some x) => .ok (Option.some (.some x))
        | .ok Option.none => .ok (Option.some .none)
      else .ok Option.none
    | .maybeNothing e =>
      if e.beq t.staticVariantType then .ok (Option.some .none) else .ok Option.none
    | _ => .ok Option.none
  | .vec t, v =>
    if v.isContainer = false then .ok Option.none
    else
      match decodeVecLoop (fromVariant t) v.childValues with
      | .error p => .error p
      | .ok Option.none => .ok Option.none
      | .ok (Option.some xs) => .ok (Option.some (.vec xs))
  | .hashMap kT vT, v =>
    if v.isContainer = false then .ok Option.none
    else
      match decodeMapLoop (fromVariant kT) (fromVariant vT) v.childValues .nil with
      | .error p => .error p
      | .ok Option.none => .ok Option.none
      | .ok (Option.some es) => .ok (Option.some (.map es))
  | .bTreeMap kT vT, v =>
    if v.isContainer = false then .ok Option.none
    else
      match decodeMapLoop (fromVariant kT) (fromVariant vT) v.childValues .nil with
      | .error p => .error p
      | .ok Option.none => .ok Option.none
      | .ok (Option.some es) => .ok (Option.some (.map es))
  | .dictEntry kT vT, v =>
    if (v.typeOf.isSubtypeOf (.dictEntry .anyBasic .any)) = false then .ok Option.none
    else
      match v.child_value 0 with
      | .error p => .error p
      | .ok kc =>
        match fromVariant kT kc with
        | .error p => .error p
        | .ok Option.none => .ok Option.none
        | .ok (Option.some kx) =>
          match v.child_value 1 with
          | .error p => .error p
          | .ok vc =>
            match fromVariant vT vc with
            | .error p => .error p
            | .ok Option.none => .ok Option.none
            | .ok (Option.some vx) => .ok (Option.some (.dictEntry kx vx))
  | .tuple ts, v =>
    if (v.typeOf.isSubtypeOf .anyTuple) = false then .ok Option.none
    else
      match fromVariantFields ts v 0 with
      | .error p => .error p
      | .ok Option.none => .ok Option.none
      | .ok (Option.some xs) => .ok (Option.some (.tuple xs))
/-- The field loop of the tuple `FromVariant` impls: field `n` is read with
`try_child_get::<Tn>(n)`; only `Ok(Some(_))` continues, `Ok(None)` and
`Err(_)` both abort with `None`, and a panic during a field decode
propagates. -/
def fromVariantFields : RustTyList → VariantValue → Nat → Except Panic (Option NativeValueList)
  | .nil, _, _ => .ok (Option.some .nil)
  | .cons t ts, v, i =>
    match v.try_child_value i with
    | Option.none => .ok Option.none
    | Option.some c =>
      match fromVariant t c with
      | .error p => .error p
      | .ok Option.none => .ok Option.none
      | .ok (Option.some x) =>
        match fromVariantFields ts v (i + 1) with
        | .error p => .error p
        | .ok Option.none => .ok Option.none
        | .ok (Option.some xs) => .ok (Option.some (.cons x xs))
end

/-- `Variant::get::<T>`: just `T::from_variant(self)`. -/
def VariantValue.get (T : RustTy) (v : VariantValue) : Except Panic (Option NativeValue) :=
  fromVariant T v

/-- `Variant::try_get::<T>`: `get()` with a `VariantTypeMismatchError`
carrying the actual and expected signatures when it returns `None`. -/
def VariantValue.try_get (T : RustTy) (v : VariantValue) :
    Except Panic (Except VariantTypeMismatchError NativeValue) :=
  match fromVariant T v with
  | .error p => .error p
  | .ok (Option.some x) => .ok (.ok x)
  | .ok Option.none => .ok (.error ⟨v.typeOf, T.staticVariantType⟩)

/-- `Variant::try_child_get::<T>`:
`self.try_child_value(index).map(|v| v.try_get()).transpose()`. -/
def VariantValue.try_child_get (T : RustTy) (v : VariantValue) (index : Nat) :
    Except Panic (Except VariantTypeMismatchError (Option NativeValue)) :=
  match v.try_child_value index with
  | Option.none => .ok (.ok Option.none)
  | Option.some c =>
    match c.try_get T with
    | .error p => .error p
    | .ok (.ok x) => .ok (.ok (Option.some x))
    | .ok (.error e) => .ok (.error e)

/-- `Variant::child_get::<T>`: `self.child_value(index).get().unwrap()` —
panics on a missing child and on a failed decode. -/
def VariantValue.child_get (T : RustTy) (v : VariantValue) (index : Nat) :
    Except Panic NativeValue :=
  match v.child_value index with
  | .error p => .error p
  | .ok c =>
    match fromVariant T c with
    | .error p => .error p
    | .ok (Option.some x) => .ok x
    | .ok Option.none => .error .panic

def NativeValueList.toList : NativeValueList → List NativeValue
  | .nil => []
  | .cons h t => h :: NativeValueList.toList t

def RustTyList.toList : RustTyList → List RustTy
  | .nil => []
  | .cons h t => h :: RustTyList.toList t

theorem VariantValueList.allTyped_mem :
    ∀ (cs : VariantValueList) (e : VariantTy), cs.allTyped e = true →
      ∀ c ∈ cs.toList, c.typeOf = e
  | .nil => by
      intro e _ c hc
      simp [VariantValueList.toList] at hc
  | .cons h t => by
      intro e ht c hc
      simp [VariantValueList.allTyped, VariantTy.beq_iff] at ht
      rcases (by simpa [VariantValueList.toList] using hc : c = h ∨ c ∈ t.toList) with rfl | hm
      · exact ht.1
      · exact VariantValueList.allTyped_mem t e ht.2 c hm

theorem VariantValueList.wfList_mem :
    ∀ cs : VariantValueList, cs.wfList = true → ∀ c ∈ cs.toList, c.wf = true
  | .nil => by
      intro _ c hc
      simp [VariantValueList.toList] at hc
  | .cons h t => by
      intro hw c hc
      simp [VariantValueList.wfList] at hw
      rcases (by simpa [VariantValueList.toList] using hc : c = h ∨ c ∈ t.toList) with rfl | hm
      · exact hw.1
      · exact VariantValueList.wfList_mem t hw.2 c hm

theorem VariantValue.try_child_value_some (v : VariantValue) (i : Nat)
    (hc : v.isContainer = true) (hi : i < v.childValues.length) :
    v.try_child_value i = Option.some (v.childValues.get ⟨i, hi⟩) := by
  rw [VariantValue.try_child_value, if_pos (by simp [hc, hi])]
  exact List.get?_eq_get hi

theorem VariantValue.try_child_value_none (v : VariantValue) (i : Nat)
    (h : v.isContainer = false ∨ v.childValues.length ≤ i) :
    v.try_child_value i = Option.none := by
  rw [VariantValue.try_child_value, if_neg]
  rcases h with h | h
  · simp [h]
  · simp only [Bool.and_eq_true, decide_eq_true_eq, not_and]
    intro _
    omega

theorem decodeVecLoop_ok (d : VariantValue → Except Panic (Option NativeValue)) :
    ∀ (cs : List VariantValue) (xs : NativeValueList),
      decodeVecLoop d cs = .ok (Option.some xs) →
      List.Forall₂ (fun c x => d c = .ok (Option.some x)) cs xs.toList := by
  intro cs
  induction cs with
  | nil =>
    intro xs h
    rw [decodeVecLoop] at h
    obtain rfl : NativeValueList.nil = xs := by simpa using h
    simp [NativeValueList.toList]
  | cons c rest ih =>
    intro xs h
    rw [decodeVecLoop] at h
    split at h
    · simp at h
    · simp at h
    next x hd =>
      split at h
      · simp at h
      · simp at h
      next xs2 hL =>
        obtain rfl : NativeValueList.cons x xs2 = xs := by simpa using h
        simp only [NativeValueList.toList]
        exact List.Forall₂.cons hd (ih xs2 hL)

/-- One map entry decodes to a key/value pair: its two children are read
without panicking and both decode successfully. -/
def entryDecodes (dk dv : VariantValue → Except Panic (Option NativeValue))
    (entry : VariantValue) (p : NativeValue × NativeValue) : Prop :=
  ∃ kc vc, entry.child_value 0 = .ok kc ∧ dk kc = .ok (Option.some p.1) ∧
    entry.child_value 1 = .ok vc ∧ dv vc = .ok (Option.some p.2)

theorem decodeMapLoop_ok (dk dv : VariantValue → Except Panic (Option NativeValue)) :
    ∀ (entries : List VariantValue) (acc out : NativePairList),
      decodeMapLoop dk dv entries acc = .ok (Option.some out) →
      ∃ ps : List (NativeValue × NativeValue),
        List.Forall₂ (entryDecodes dk dv) entries ps ∧
        out = ps.foldl (fun m p => m.insert p.1 p.2) acc := by
  intro entries
  induction entries with
  | nil =>
    intro acc out h
    rw [decodeMapLoop] at h
    obtain rfl : acc = out := by simpa using h
    exact ⟨[], List.Forall₂.nil, rfl⟩
  | cons e rest ih =>
    intro acc out h
    rw [decodeMapLoop] at h
    split at h
    · simp at h
    next kc hk =>
      split at h
      · simp at h
      · simp at h
      next kx hdk =>
        split at h
        · simp at h
        next vc hv =>
          split at h
          · simp at h
          · simp at h
          next vx hdv =>
            obtain ⟨ps, hps, hout⟩ := ih (acc.insert kx vx) out h
            exact ⟨(kx, vx) :: ps,
              List.Forall₂.cons ⟨kc, vc, hk, hdk, hv, hdv⟩ hps, hout⟩

/-- C3 counterexample: `Vec::<String>::from_variant` succeeds on a variant
whose signature `(ss)` differs from `Vec<String>`'s static signature `as` —
a signature mismatch does not imply a `None` decode. -/
theorem c3_counterexample :
    fromVariant (.vec .string)
        (.tuple (.cons (.string "a") (.cons (.string "b") .nil))) =
      .ok (Option.some (.vec (.cons (.string "a") (.cons (.string "b") .nil)))) ∧
    (VariantValue.tuple
        (.cons (.string "a") (.cons (.string "b") .nil))).typeOf.typeString ≠
      (RustTy.vec .string).staticVariantType.typeString := by
  decide

/-- C3 (amended): the composite `FromVariant` impls never return a
partially decoded value.  `Vec` and the map impls return `None` on a
non-container input; when they succeed, every child (for maps: both
components of every entry child) was decoded successfully and contributed,
the map being built by in-order `insert`.  (A signature mismatch alone does
not force `None`: any container whose children decode as the element type
is accepted, per `c3_counterexample`.) -/
theorem c3_from_variant_all_or_nothing (t kT vT : RustTy) (v : VariantValue) :
    (v.isContainer = false →
      fromVariant (.vec t) v = .ok Option.none ∧
      fromVariant (.hashMap kT vT) v = .ok Option.none) ∧
    (∀ r, fromVariant (.vec t) v = .ok (Option.some r) →
      ∃ xs, r = .vec xs ∧
        List.Forall₂ (fun c x => fromVariant t c = .ok (Option.some x))
          v.childValues xs.toList) ∧
    (∀ r, fromVariant (.hashMap kT vT) v = .ok (Option.some r) →
      ∃ ps : List (NativeValue × NativeValue),
        List.Forall₂ (entryDecodes (fromVariant kT) (fromVariant vT))
          v.childValues ps ∧
        r = .map (ps.foldl (fun m p => m.insert p.1 p.2) .nil)) := by
  refine ⟨?_, ?_, ?_⟩
  · intro h
    constructor <;> · rw [fromVariant]; simp [h]
  · intro r h
    rw [fromVariant] at h
    rcases hC : v.isContainer with _ | _ <;> rw [hC] at h
    · simp at h
    · simp only [Bool.true_eq_false, if_false] at h
      rcases hL : decodeVecLoop (fromVariant t) v.childValues with p | o <;> rw [hL] at h
      · simp at h
      · rcases o with _ | xs
        · simp at h
        · obtain rfl : NativeValue.vec xs = r := by simpa using h
          exact ⟨xs, rfl, decodeVecLoop_ok _ _ _ hL⟩
  · intro r h
    rw [fromVariant] at h
    rcases hC : v.isContainer with _ | _ <;> rw [hC] at h
    · simp at h
    · simp only [Bool.true_eq_false, if_false] at h
      rcases hL : decodeMapLoop (fromVariant kT) (fromVariant vT) v.childValues .nil
        with p | o <;> rw [hL] at h
      · simp at h
      · rcases o with _ | es
        · simp at h
        · obtain rfl : NativeValue.map es = r := by simpa using h
          obtain ⟨ps, hps, hes⟩ := decodeMapLoop_ok _ _ _ _ _ hL
          exact ⟨ps, hps, by rw [hes]⟩

/-- Witness for C3 at a concrete input: decoding a scalar string variant as
`Vec<u8>` or as `HashMap<u8, u8>` yields `None` (not a panic, not a partial
value). -/
theorem c3_from_variant_all_or_nothing_witness :
    fromVariant (.vec .u8) (.string "x") = .ok Option.none ∧
    fromVariant (.hashMap .u8 .u8) (.string "x") = .ok Option.none :=
  (c3_from_variant_all_or_nothing .u8 .u8 .u8 (.string "x")).1 (by decide)

theorem VariantTy.beq_refl (t : VariantTy) : t.beq t = true :=
  (VariantTy.beq_iff t t).mpr rfl

theorem VariantTy.isSubtypeOf_any (x : VariantTy) : x.isSubtypeOf .any = true := by
  cases x <;> simp [VariantTy.isSubtypeOf]

theorem VariantTy.isSubtypeOf_anyBasic (x : VariantTy) :
    x.isSubtypeOf .anyBasic = x.isBasic := by
  cases x <;> simp [VariantTy.isSubtypeOf, VariantTy.isBasic]

theorem child_value_dictEntry_zero (a b : VariantValue) :
    (VariantValue.dictEntry a b).child_value 0 = .ok a := by
  simp [VariantValue.child_value, VariantValue.isContainer, VariantValue.classify,
    VariantValue.childValues]

theorem child_value_dictEntry_one (a b : VariantValue) :
    (VariantValue.dictEntry a b).child_value 1 = .ok b := by
  simp [VariantValue.child_value, VariantValue.isContainer, VariantValue.classify,
    VariantValue.childValues]

theorem drop_eq_cons_facts :
    ∀ (l : List VariantValue) (i : Nat) (c : VariantValue) (r : List VariantValue),
      l.drop i = c :: r → l.get? i = some c ∧ l.drop (i + 1) = r := by
  intro l
  induction l with
  | nil => intro i c r h; simp at h
  | cons x xs ih =>
    intro i c r h
    cases i with
    | zero =>
      simp only [List.drop_zero] at h
      cases h
      exact ⟨rfl, by simp⟩
    | succ j =>
      simp only [List.drop_succ_cons] at h
      obtain ⟨h1, h2⟩ := ih j c r h
      exact ⟨h1, h2⟩

theorem get?_some_lt :
    ∀ (l : List VariantValue) (i : Nat) (c : VariantValue),
      l.get? i = some c → i < l.length := by
  intro l
  induction l with
  | nil => intro i c h; simp at h
  | cons x xs ih =>
    intro i c h
    cases i with
    | zero => simp
    | succ j =>
      have := ih j c (by simpa using h)
      simp
      omega

theorem decodeVecLoop_total (d : VariantValue → Except Panic (Option NativeValue)) :
    ∀ cs : List VariantValue, (∀ c ∈ cs, ∃ x, d c = .ok (Option.some x)) →
      ∃ xs, decodeVecLoop d cs = .ok (Option.some xs) := by
  intro cs
  induction cs with
  | nil => exact fun _ => ⟨.nil, rfl⟩
  | cons c r ih =>
    intro h
    obtain ⟨x, hx⟩ := h c (by simp)
    obtain ⟨xs, hxs⟩ := ih (fun c2 hc2 => h c2 (by simp [hc2]))
    exact ⟨.cons x xs, by simp [decodeVecLoop, hx, hxs]⟩

theorem decodeMapLoop_total (dk dv : VariantValue → Except Panic (Option NativeValue)) :
    ∀ entries : List VariantValue,
      (∀ e ∈ entries, ∃ a b ka vb, e.child_value 0 = .ok a ∧
        dk a = .ok (Option.some ka) ∧ e.child_value 1 = .ok b ∧
        dv b = .ok (Option.some vb)) →
      ∀ acc, ∃ out, decodeMapLoop dk dv entries acc = .ok (Option.some out) := by
  intro entries
  induction entries with
  | nil => exact fun _ acc => ⟨acc, rfl⟩
  | cons e r ih =>
    intro h acc
    obtain ⟨a, b, ka, vb, h1, h2, h3, h4⟩ := h e (by simp)
    obtain ⟨out, hout⟩ := ih (fun e2 he2 => h e2 (by simp [he2])) (acc.insert ka vb)
    exact ⟨out, by simp [decodeMapLoop, h1, h2, h3, h4, hout]⟩

theorem tupleRel :
    ∀ (ts : RustTyList) (cs : VariantValueList),
      cs.typesOf = ts.staticList → cs.wfList = true →
      List.Forall₂ (fun t c => c.wf = true ∧ c.typeOf = t.staticVariantType)
        ts.toList cs.toList
  | .nil, cs => by
      intro h _
      cases cs with
      | nil => simp [RustTyList.toList, VariantValueList.toList]
      | cons c cs2 => simp [VariantValueList.typesOf, RustTyList.staticList] at h
  | .cons t ts2, cs => by
      intro h hw
      cases cs with
      | nil => simp [VariantValueList.typesOf, RustTyList.staticList] at h
      | cons c cs2 =>
        simp [VariantValueList.typesOf, RustTyList.staticList] at h
        simp [VariantValueList.wfList] at hw
        simp only [RustTyList.toList, VariantValueList.toList]
        exact List.Forall₂.cons ⟨hw.1, h.1⟩ (tupleRel ts2 cs2 h.2 hw.2)

mutual
/-- Decoding succeeds on a type match: for every `T` in the universe and
every well-formed value whose signature is exactly
`T::static_variant_type()`, `T::from_variant` returns `Some`. -/
theorem fromVariant_matches :
    ∀ (T : RustTy) (c : VariantValue), c.wf = true →
      c.typeOf = T.staticVariantType → ∃ x, fromVariant T c = .ok (Option.some x)
  | .u8, c => by
      intro hw hty
      cases c <;> simp [VariantValue.typeOf, RustTy.staticVariantType] at hty
      rename_i n
      exact ⟨.u8 n, by simp [fromVariant]⟩
  | .i16, c => by
      intro hw hty
      cases c <;> simp [VariantValue.typeOf, RustTy.staticVariantType] at hty
      rename_i n
      exact ⟨.i16 n, by simp [fromVariant]⟩
  | .u16, c => by
      intro hw hty
      cases c <;> simp [VariantValue.typeOf, RustTy.staticVariantType] at hty
      rename_i n
      exact ⟨.u16 n, by simp [fromVariant]⟩
  | .i32, c => by
      intro hw hty
      cases c <;> simp [VariantValue.typeOf, RustTy.staticVariantType] at hty
      rename_i n
      exact ⟨.i32 n, by simp [fromVariant]⟩
  | .u32, c => by
      intro hw hty
      cases c <;> simp [VariantValue.typeOf, RustTy.staticVariantType] at hty
      rename_i n
      exact ⟨.u32 n, by simp [fromVariant]⟩
  | .i64, c => by
      intro hw hty
      cases c <;> simp [VariantValue.typeOf, RustTy.staticVariantType] at hty
      rename_i n
      exact ⟨.i64 n, by simp [fromVariant]⟩
  | .u64, c => by
      intro hw hty
      cases c <;> simp [VariantValue.typeOf, RustTy.staticVariantType] at hty
      rename_i n
      exact ⟨.u64 n, by simp [fromVariant]⟩
  | .f64, c => by
      intro hw hty
      cases c <;> simp [VariantValue.typeOf, RustTy.staticVariantType] at hty
      rename_i n
      exact ⟨.f64 n, by simp [fromVariant]⟩
  | .bool, c => by
      intro hw hty
      cases c <;> simp [VariantValue.typeOf, RustTy.staticVariantType] at hty
      rename_i b
      exact ⟨.bool b, by simp [fromVariant]⟩
  | .unit, c => by
      intro hw hty
      cases c <;> simp [VariantValue.typeOf, RustTy.staticVariantType] at hty
      rename_i cs
      cases cs with
      | nil => exact ⟨.unit, by simp [fromVariant]⟩
      | cons c2 cs2 => simp [VariantValueList.typesOf] at hty
  | .string, c => by
      intro hw hty
      cases c <;> simp [VariantValue.typeOf, RustTy.staticVariantType] at hty
      rename_i s
      exact ⟨.string s, by simp [fromVariant, VariantValue.str]⟩
  | .variant, c => by
      intro hw hty
      cases c <;> simp [VariantValue.typeOf, RustTy.staticVariantType] at hty
      rename_i c2
      exact ⟨.variant c2, by simp [fromVariant]⟩
  | .option t, c => by
      intro hw hty
      cases c <;> simp [VariantValue.typeOf, RustTy.staticVariantType] at hty
      case maybeJust e c2 =>
        subst hty
        simp [VariantValue.wf, VariantTy.beq_iff] at hw
        obtain ⟨x, hx⟩ := fromVariant_matches t c2 hw.2 hw.1.2
        exact ⟨.some x, by simp [fromVariant, VariantTy.beq_refl, hx]⟩
      case maybeNothing e =>
        subst hty
        exact ⟨.none, by simp [fromVariant, VariantTy.beq_refl]⟩
  | .vec t, c => by
      intro hw hty
      cases c <;> simp [VariantValue.typeOf, RustTy.staticVariantType] at hty
      case array e cs =>
        subst hty
        simp [VariantValue.wf] at hw
        have hall : ∀ c2 ∈ cs.toList, ∃ x, fromVariant t c2 = .ok (Option.some x) := by
          intro c2 hc2
          exact fromVariant_matches t c2
            (VariantValueList.wfList_mem cs hw.2 c2 hc2)
            (VariantValueList.allTyped_mem cs _ hw.1.2 c2 hc2)
        obtain ⟨xs, hxs⟩ := decodeVecLoop_total (fromVariant t) cs.toList hall
        exact ⟨.vec xs, by
          simp [fromVariant, VariantValue.isContainer, VariantValue.classify,
            VariantValue.childValues, hxs]⟩
  | .hashMap kT vT, c => by
      intro hw hty
      cases c <;>
        simp [VariantValue.typeOf, RustTy.staticVariantType, staticVariantMapping_eq] at hty
      case array e cs =>
        subst hty
        simp [VariantValue.wf] at hw
        have hentry : ∀ entry ∈ cs.toList, ∃ a b ka vb,
            entry.child_value 0 = .ok a ∧ fromVariant kT a = .ok (Option.some ka) ∧
            entry.child_value 1 = .ok b ∧ fromVariant vT b = .ok (Option.some vb) := by
          intro entry he
          have hT := VariantValueList.allTyped_mem cs _ hw.1.2 entry he
          have hW := VariantValueList.wfList_mem cs hw.2 entry he
          cases entry <;> simp [VariantValue.typeOf] at hT
          rename_i a b
          simp [VariantValue.wf] at hW
          obtain ⟨xk, hxk⟩ := fromVariant_matches kT a hW.1.2 hT.1
          obtain ⟨xv, hxv⟩ := fromVariant_matches vT b hW.2 hT.2
          exact ⟨a, b, xk, xv, child_value_dictEntry_zero a b, hxk,
            child_value_dictEntry_one a b, hxv⟩
        obtain ⟨out, hout⟩ :=
          decodeMapLoop_total (fromVariant kT) (fromVariant vT) cs.toList hentry .nil
        exact ⟨.map out, by
          simp [fromVariant, VariantValue.isContainer, VariantValue.classify,
            VariantValue.childValues, hout]⟩
  | .bTreeMap kT vT, c => by
      intro hw hty
      cases c <;>
        simp [VariantValue.typeOf, RustTy.staticVariantType, staticVariantMapping_eq] at hty
      case array e cs =>
        subst hty
        simp [VariantValue.wf] at hw
        have hentry : ∀ entry ∈ cs.toList, ∃ a b ka vb,
            entry.child_value 0 = .ok a ∧ fromVariant kT a = .ok (Option.some ka) ∧
            entry.child_value 1 = .ok b ∧ fromVariant vT b = .ok (Option.some vb) := by
          intro entry he
          have hT := VariantValueList.allTyped_mem cs _ hw.1.2 entry he
          have hW := VariantValueList.wfList_mem cs hw.2 entry he
          cases entry <;> simp [VariantValue.typeOf] at hT
          rename_i a b
          simp [VariantValue.wf] at hW
          obtain ⟨xk, hxk⟩ := fromVariant_matches kT a hW.1.2 hT.1
          obtain ⟨xv, hxv⟩ := fromVariant_matches vT b hW.2 hT.2
          exact ⟨a, b, xk, xv, child_value_dictEntry_zero a b, hxk,
            child_value_dictEntry_one a b, hxv⟩
        obtain ⟨out, hout⟩ :=
          decodeMapLoop_total (fromVariant kT) (fromVariant vT) cs.toList hentry .nil
        exact ⟨.map out, by
          simp [fromVariant, VariantValue.isContainer, VariantValue.classify,
            VariantValue.childValues, hout]⟩
  | .dictEntry kT vT, c => by
      intro hw hty
      cases c <;> simp [VariantValue.typeOf, RustTy.staticVariantType] at hty
      rename_i a b
      simp [VariantValue.wf] at hw
      obtain ⟨xk, hxk⟩ := fromVariant_matches kT a hw.1.2 hty.1
      obtain ⟨xv, hxv⟩ := fromVariant_matches vT b hw.2 hty.2
      refine ⟨.dictEntry xk xv, ?_⟩
      have hguard : (VariantValue.dictEntry a b).typeOf.isSubtypeOf
          (.dictEntry .anyBasic .any) = true := by
        simp [VariantValue.typeOf, VariantTy.isSubtypeOf, VariantTy.isSubtypeOf_any,
          VariantTy.isSubtypeOf_anyBasic, hw.1.1]
      simp [fromVariant, hguard, child_value_dictEntry_zero, child_value_dictEntry_one,
        hxk, hxv]
  | .tuple ts, c => by
      intro hw hty
      cases c <;> simp [VariantValue.typeOf, RustTy.staticVariantType] at hty
      rename_i cs
      simp [VariantValue.wf] at hw
      have hrel := tupleRel ts cs hty hw
      obtain ⟨xs, hxs⟩ := fromVariantFields_matches ts (VariantValue.tuple cs) 0
        cs.toList (by simp [VariantValue.childValues])
        (by simp [VariantValue.isContainer, VariantValue.classify]) hrel
      exact ⟨.tuple xs, by
        simp [fromVariant, VariantValue.typeOf, VariantTy.isSubtypeOf, hxs]⟩
theorem fromVariantFields_matches :
    ∀ (ts : RustTyList) (v : VariantValue) (i : Nat) (ds : List VariantValue),
      v.childValues.drop i = ds → v.isContainer = true →
      List.Forall₂ (fun t c => c.wf = true ∧ c.typeOf = t.staticVariantType)
        ts.toList ds →
      ∃ xs, fromVariantFields ts v i = .ok (Option.some xs)
  | .nil, v, i, ds => by
      intro _ _ _
      exact ⟨.nil, rfl⟩
  | .cons t ts2, v, i, ds => by
      intro hdrop hcont hrel
      rcases ds with _ | ⟨c, ds2⟩
      · simp only [RustTyList.toList] at hrel
        cases hrel
      · simp only [RustTyList.toList] at hrel
        rw [List.forall₂_cons] at hrel
        obtain ⟨⟨hcw, hcty⟩, hrel2⟩ := hrel
        obtain ⟨h1, h2⟩ := drop_eq_cons_facts _ _ _ _ hdrop
        have hlt := get?_some_lt _ _ _ h1
        obtain ⟨x, hx⟩ := fromVariant_matches t c hcw hcty
        obtain ⟨xs, hxs⟩ := fromVariantFields_matches ts2 v (i + 1) ds2 h2 hcont hrel2
        have htcv : v.try_child_value i = Option.some c := by
          rw [VariantValue.try_child_value, if_pos (by simp [hcont, hlt])]
          exact h1
        exact ⟨.cons x xs, by simp [fromVariantFields, htcv, hx, hxs]⟩
end

/-- C4 counterexample: a child whose signature `(ss)` differs from
`Vec<String>`'s expected signature `as` still yields `Ok(Some(_))` from
`try_child_get`, not `Err` — a present child with a mismatched type is not
always an error. -/
theorem c4_counterexample :
    VariantValue.try_child_get (.vec .string)
        (VariantValue.array (.tuple (.cons .string (.cons .string .nil)))
          (.cons (.tuple (.cons (.string "a") (.cons (.string "b") .nil))) .nil)) 0 =
      .ok (.ok (Option.some (.vec (.cons (.string "a") (.cons (.string "b") .nil))))) ∧
    (VariantValue.tuple (.cons (.string "a") (.cons (.string "b") .nil))).typeOf ≠
      (RustTy.vec .string).staticVariantType := by
  decide

/-- C4 (amended): `try_child_get::<T>(i)` returns `Ok(None)` when `self` is
not a container or `i` is out of range; when the child at `i` exists it
returns `Ok(Some(x))` whenever `T::from_variant` decodes it to `x` — in
particular whenever the child's signature is exactly `T`'s static signature
— returns `Err(VariantTypeMismatchError)` carrying the child's actual and
`T`'s expected signature exactly when the decode returns `None`, and
propagates a panic raised inside the decode.  (A mismatched signature does
not by itself force `Err`: structurally compatible children still decode,
per `c4_counterexample`.) -/
theorem c4_try_child_get_spec (T : RustTy) (v : VariantValue) (i : Nat) :
    (v.isContainer = false ∨ v.childValues.length ≤ i →
      VariantValue.try_child_get T v i = .ok (.ok Option.none)) ∧
    (∀ (hc : v.isContainer = true) (hi : i < v.childValues.length),
      (∀ x, fromVariant T (v.childValues.get ⟨i, hi⟩) = .ok (Option.some x) →
        VariantValue.try_child_get T v i = .ok (.ok (Option.some x))) ∧
      ((v.childValues.get ⟨i, hi⟩).wf = true →
        (v.childValues.get ⟨i, hi⟩).typeOf = T.staticVariantType →
        ∃ x, VariantValue.try_child_get T v i = .ok (.ok (Option.some x))) ∧
      (fromVariant T (v.childValues.get ⟨i, hi⟩) = .ok Option.none →
        VariantValue.try_child_get T v i =
          .ok (.error ⟨(v.childValues.get ⟨i, hi⟩).typeOf, T.staticVariantType⟩)) ∧
      (∀ p, fromVariant T (v.childValues.get ⟨i, hi⟩) = .error p →
        VariantValue.try_child_get T v i = .error p)) := by
  constructor
  · intro h
    simp [VariantValue.try_child_get, VariantValue.try_child_value_none v i h]
  · intro hc hi
    have hv := VariantValue.try_child_value_some v i hc hi
    refine ⟨?_, ?_, ?_, ?_⟩
    · intro x hx
      simp only [List.get_eq_getElem] at hx
      simp [VariantValue.try_child_get, hv, VariantValue.try_get, hx]
    · intro hw hty
      obtain ⟨x, hx⟩ := fromVariant_matches T _ hw hty
      simp only [List.get_eq_getElem] at hx
      exact ⟨x, by simp [VariantValue.try_child_get, hv, VariantValue.try_get, hx]⟩
    · intro hnone
      simp only [List.get_eq_getElem] at hnone
      simp [VariantValue.try_child_get, hv, VariantValue.try_get, hnone]
    · intro p hp
      simp only [List.get_eq_getElem] at hp
      simp [VariantValue.try_child_get, hv, VariantValue.try_get, hp]

/-- Witness for C4 at concrete inputs: on a one-element string array,
reading child 0 as `String` succeeds, child 1 is absent (`Ok(None)`), and
reading child 0 as `u32` is a type mismatch carrying actual `s`, expected
`u`. -/
theorem c4_try_child_get_spec_witness :
    VariantValue.try_child_get .string
        (VariantValue.array .string (.cons (.string "hi") .nil)) 0 =
      .ok (.ok (Option.some (.string "hi"))) ∧
    VariantValue.try_child_get .string
        (VariantValue.array .string (.cons (.string "hi") .nil)) 1 =
      .ok (.ok Option.none) ∧
    VariantValue.try_child_get .u32
        (VariantValue.array .string (.cons (.string "hi") .nil)) 0 =
      .ok (.error ⟨.string, .uint32⟩) := by
  refine ⟨?_, ?_, ?_⟩
  · exact ((c4_try_child_get_spec .string
      (VariantValue.array .string (.cons (.string "hi") .nil)) 0).2 (by decide)
      (by decide)).1 (.string "hi") (by decide)
  · exact (c4_try_child_get_spec .string
      (VariantValue.array .string (.cons (.string "hi") .nil)) 1).1 (Or.inr (by decide))
  · have h := ((c4_try_child_get_spec .u32
      (VariantValue.array .string (.cons (.string "hi") .nil)) 0).2 (by decide)
      (by decide)).2.2.1 (by decide)
    simpa using h

theorem NativeValueList.allPList_mem (p : NativeValue → Bool) :
    ∀ xs : NativeValueList, NativeValueList.allP p xs = true →
      ∀ x ∈ xs.toList, p x = true
  | .nil => by
      intro _ x hx
      simp [NativeValueList.toList] at hx
  | .cons h t => by
      intro hall x hx
      simp [NativeValueList.allP] at hall
      rcases (by simpa [NativeValueList.toList] using hx : x = h ∨ x ∈ t.toList) with rfl | hm
      · exact hall.1
      · exact NativeValueList.allPList_mem p t hall.2 x hm

def NativePairList.pairsToList : NativePairList → List (NativeValue × NativeValue)
  | .nil => []
  | .cons k v t => (k, v) :: NativePairList.pairsToList t

def NativePairList.append : NativePairList → NativePairList → NativePairList
  | .nil, b => b
  | .cons k v t, b => .cons k v (NativePairList.append t b)

theorem NativePairList.append_nil :
    ∀ a : NativePairList, a.append .nil = a
  | .nil => rfl
  | .cons k v t => by
      simp [NativePairList.append, NativePairList.append_nil t]

theorem NativePairList.append_cons :
    ∀ (a : NativePairList) (k v : NativeValue) (t : NativePairList),
      (a.append (.cons k v .nil)).append t = a.append (.cons k v t)
  | .nil, k, v, t => rfl
  | .cons k0 v0 a, k, v, t => by
      simp [NativePairList.append, NativePairList.append_cons a k v t]

theorem NativePairList.insert_fresh :
    ∀ (a : NativePairList) (k v : NativeValue), a.containsKey k = false →
      a.insert k v = a.append (.cons k v .nil)
  | .nil, k, v => by intro _; rfl
  | .cons k0 v0 t, k, v => by
      intro h
      simp [NativePairList.containsKey] at h
      rw [NativePairList.insert, if_neg (by simp [h.1]), NativePairList.append,
        NativePairList.insert_fresh t k v h.2]

theorem NativePairList.containsKey_append :
    ∀ (a b : NativePairList) (x : NativeValue),
      (a.append b).containsKey x = (a.containsKey x || b.containsKey x)
  | .nil, b, x => by simp [NativePairList.append, NativePairList.containsKey]
  | .cons k v t, b, x => by
      simp [NativePairList.append, NativePairList.containsKey,
        NativePairList.containsKey_append t b x, Bool.or_assoc]

theorem NativePairList.containsKey_false_mem :
    ∀ (a : NativePairList) (x : NativeValue), a.containsKey x = false →
      ∀ p ∈ a.pairsToList, (p.1).beq x = false
  | .nil, x => by
      intro _ p hp
      simp [NativePairList.pairsToList] at hp
  | .cons k v t, x => by
      intro h p hp
      simp [NativePairList.containsKey] at h
      rcases (by simpa [NativePairList.pairsToList] using hp :
          p = (k, v) ∨ p ∈ t.pairsToList) with rfl | hm
      · simpa using h.1
      · exact NativePairList.containsKey_false_mem t x h.2 p hm

theorem NativePairList.allPPairs_mem (pk pv : NativeValue → Bool) :
    ∀ es : NativePairList, NativePairList.allP pk pv es = true →
      ∀ p ∈ es.pairsToList, pk p.1 = true ∧ pv p.2 = true
  | .nil => by
      intro _ p hp
      simp [NativePairList.pairsToList] at hp
  | .cons k v t => by
      intro hall p hp
      simp [NativePairList.allP] at hall
      rcases (by simpa [NativePairList.pairsToList] using hp :
          p = (k, v) ∨ p ∈ t.pairsToList) with rfl | hm
      · exact ⟨hall.1.1, hall.1.2⟩
      · exact NativePairList.allPPairs_mem pk pv t hall.2 p hm

mutual
/-- Encoding a typed native value yields a variant of exactly the static
signature of its Rust type. -/
theorem toVariant_typeOf :
    ∀ (T : RustTy) (x : NativeValue), NativeValue.hasType T x = true →
      (NativeValue.toVariant T x).typeOf = T.staticVariantType
  | .u8, x => by
      intro h
      cases x <;> simp [NativeValue.hasType] at h <;>
        simp [NativeValue.toVariant, VariantValue.typeOf, RustTy.staticVariantType]
  | .i16, x => by
      intro h
      cases x <;> simp [NativeValue.hasType] at h <;>
        simp [NativeValue.toVariant, VariantValue.typeOf, RustTy.staticVariantType]
  | .u16, x => by
      intro h
      cases x <;> simp [NativeValue.hasType] at h <;>
        simp [NativeValue.toVariant, VariantValue.typeOf, RustTy.staticVariantType]
  | .i32, x => by
      intro h
      cases x <;> simp [NativeValue.hasType] at h <;>
        simp [NativeValue.toVariant, VariantValue.typeOf, RustTy.staticVariantType]
  | .u32, x => by
      intro h
      cases x <;> simp [NativeValue.hasType] at h <;>
        simp [NativeValue.toVariant, VariantValue.typeOf, RustTy.staticVariantType]
  | .i64, x => by
      intro h
      cases x <;> simp [NativeValue.hasType] at h <;>
        simp [NativeValue.toVariant, VariantValue.typeOf, RustTy.staticVariantType]
  | .u64, x => by
      intro h
      cases x <;> simp [NativeValue.hasType] at h <;>
        simp [NativeValue.toVariant, VariantValue.typeOf, RustTy.staticVariantType]
  | .f64, x => by
      intro h
      cases x <;> simp [NativeValue.hasType] at h <;>
        simp [NativeValue.toVariant, VariantValue.typeOf, RustTy.staticVariantType]
  | .bool, x => by
      intro h
      cases x <;> simp [NativeValue.hasType] at h <;>
        simp [NativeValue.toVariant, VariantValue.typeOf, RustTy.staticVariantType]
  | .unit, x => by
      intro h
      cases x <;> simp [NativeValue.hasType] at h <;>
        simp [NativeValue.toVariant, VariantValue.typeOf, RustTy.staticVariantType,
          VariantValueList.typesOf]
  | .string, x => by
      intro h
      cases x <;> simp [NativeValue.hasType] at h <;>
        simp [NativeValue.toVariant, VariantValue.typeOf, RustTy.staticVariantType]
  | .variant, x => by
      intro h
      cases x <;> simp [NativeValue.hasType] at h <;>
        simp [NativeValue.toVariant, VariantValue.typeOf, RustTy.staticVariantType]
  | .option t, x => by
      intro h
      cases x <;> simp [NativeValue.hasType] at h <;>
        simp [NativeValue.toVariant, VariantValue.typeOf, RustTy.staticVariantType]
  | .vec t, x => by
      intro h
      cases x <;> simp [NativeValue.hasType] at h <;>
        simp [NativeValue.toVariant, VariantValue.typeOf, RustTy.staticVariantType]
  | .hashMap kT vT, x => by
      intro h
      cases x <;> simp [NativeValue.hasType] at h <;>
        simp [NativeValue.toVariant, VariantValue.typeOf, RustTy.staticVariantType,
          staticVariantMapping_eq]
  | .bTreeMap kT vT, x => by
      intro h
      cases x <;> simp [NativeValue.hasType] at h <;>
        simp [NativeValue.toVariant, VariantValue.typeOf, RustTy.staticVariantType,
          staticVariantMapping_eq]
  | .dictEntry kT vT, x => by
      intro h
      cases x <;> simp [NativeValue.hasType] at h
      rename_i a b
      simp [NativeValue.toVariant, VariantValue.typeOf, RustTy.staticVariantType,
        toVariant_typeOf kT a h.2.1, toVariant_typeOf vT b h.2.2]
  | .tuple ts, x => by
      intro h
      cases x <;> simp [NativeValue.hasType] at h
      rename_i xs
      simp [NativeValue.toVariant, VariantValue.typeOf, RustTy.staticVariantType,
        toVariantList_typesOf ts xs h]
theorem toVariantList_typesOf :
    ∀ (ts : RustTyList) (xs : NativeValueList), NativeValue.hasTypes ts xs = true →
      (NativeValue.toVariantList ts xs).typesOf = ts.staticList
  | .nil, xs => by
      intro _
      simp [NativeValue.toVariantList, VariantValueList.typesOf, RustTyList.staticList]
  | .cons t ts2, xs => by
      intro h
      cases xs with
      | nil => simp [NativeValue.hasTypes] at h
      | cons x rest =>
        simp [NativeValue.hasTypes] at h
        simp [NativeValue.toVariantList, VariantValueList.typesOf, RustTyList.staticList,
          toVariant_typeOf t x h.1, toVariantList_typesOf ts2 rest h.2]
end

theorem NativeValue.beqNative_refl (x : NativeValue) : x.beq x = true :=
  (NativeValue.beqNative_iff x x).mpr rfl

theorem decodeVecLoop_mapP (d : VariantValue → Except Panic (Option NativeValue))
    (enc : NativeValue → VariantValue) :
    ∀ xs : NativeValueList, (∀ x ∈ xs.toList, d (enc x) = .ok (Option.some x)) →
      decodeVecLoop d ((NativeValueList.mapP enc xs).toList) = .ok (Option.some xs)
  | .nil => by
      intro _
      simp [NativeValueList.mapP, VariantValueList.toList, decodeVecLoop]
  | .cons x t => by
      intro h
      have hx := h x (by simp [NativeValueList.toList])
      have ht := decodeVecLoop_mapP d enc t
        (fun y hy => h y (by simp [NativeValueList.toList, hy]))
      simp [NativeValueList.mapP, VariantValueList.toList, decodeVecLoop, hx, ht]

theorem decodeMapLoop_mapPairs (dk dv : VariantValue → Except Panic (Option NativeValue))
    (enck encv : NativeValue → VariantValue) :
    ∀ (es : NativePairList) (acc : NativePairList),
      (∀ p ∈ es.pairsToList, dk (enck p.1) = .ok (Option.some p.1) ∧
        dv (encv p.2) = .ok (Option.some p.2)) →
      es.nodupKeys = true →
      (∀ p ∈ es.pairsToList, acc.containsKey p.1 = false) →
      decodeMapLoop dk dv
        ((NativePairList.mapPairs (fun a b => .dictEntry (enck a) (encv b)) es).toList)
        acc =
        .ok (Option.some (acc.append es))
  | .nil, acc => by
      intro _ _ _
      simp [NativePairList.mapPairs, VariantValueList.toList, decodeMapLoop,
        NativePairList.append_nil]
  | .cons k v t, acc => by
      intro hdec hnodup hfresh
      have hk := hdec (k, v) (by simp [NativePairList.pairsToList])
      have hfk : acc.containsKey k = false :=
        hfresh (k, v) (by simp [NativePairList.pairsToList])
      simp [NativePairList.nodupKeys] at hnodup
      have ht := decodeMapLoop_mapPairs dk dv enck encv t (acc.append (.cons k v .nil))
        (fun p hp => hdec p (by simp [NativePairList.pairsToList, hp]))
        hnodup.2
        (fun p hp => by
          rw [NativePairList.containsKey_append]
          have h1 := hfresh p (by simp [NativePairList.pairsToList, hp])
          have hmem := NativePairList.containsKey_false_mem t k hnodup.1 p hp
          have h2 : k.beq p.1 = false := by
            rcases hb : k.beq p.1 with _ | _
            · rfl
            · obtain rfl := (NativeValue.beqNative_iff _ _).mp hb
              simp [NativeValue.beqNative_refl] at hmem
          simp [NativePairList.containsKey, h1, h2])
      simp [NativePairList.mapPairs, VariantValueList.toList, decodeMapLoop,
        child_value_dictEntry_zero, child_value_dictEntry_one, hk.1, hk.2,
        NativePairList.insert_fresh acc k v hfk, ht, NativePairList.append_cons]

mutual
/-- Round-trip of the conversion traits: encoding a typed native value with
`ToVariant` and decoding with `FromVariant` returns exactly the original
value (and in particular never panics). -/
theorem roundtrip :
    ∀ (T : RustTy) (x : NativeValue), NativeValue.hasType T x = true →
      fromVariant T (NativeValue.toVariant T x) = .ok (Option.some x)
  | .u8, x => by
      intro h
      cases x <;> simp [NativeValue.hasType] at h <;>
        simp [NativeValue.toVariant, fromVariant]
  | .i16, x => by
      intro h
      cases x <;> simp [NativeValue.hasType] at h <;>
        simp [NativeValue.toVariant, fromVariant]
  | .u16, x => by
      intro h
      cases x <;> simp [NativeValue.hasType] at h <;>
        simp [NativeValue.toVariant, fromVariant]
  | .i32, x => by
      intro h
      cases x <;> simp [NativeValue.hasType] at h <;>
        simp [NativeValue.toVariant, fromVariant]
  | .u32, x => by
      intro h
      cases x <;> simp [NativeValue.hasType] at h <;>
        simp [NativeValue.toVariant, fromVariant]
  | .i64, x => by
      intro h
      cases x <;> simp [NativeValue.hasType] at h <;>
        simp [NativeValue.toVariant, fromVariant]
  | .u64, x => by
      intro h
      cases x <;> simp [NativeValue.hasType] at h <;>
        simp [NativeValue.toVariant, fromVariant]
  | .f64, x => by
      intro h
      cases x <;> simp [NativeValue.hasType] at h <;>
        simp [NativeValue.toVariant, fromVariant]
  | .bool, x => by
      intro h
      cases x <;> simp [NativeValue.hasType] at h <;>
        simp [NativeValue.toVariant, fromVariant]
  | .unit, x => by
      intro h
      cases x <;> simp [NativeValue.hasType] at h <;>
        simp [NativeValue.toVariant, fromVariant]
  | .string, x => by
      intro h
      cases x <;> simp [NativeValue.hasType] at h <;>
        simp [NativeValue.toVariant, fromVariant, VariantValue.str]
  | .variant, x => by
      intro h
      cases x <;> simp [NativeValue.hasType] at h <;>
        simp [NativeValue.toVariant, fromVariant]
  | .option t, x => by
      intro h
      cases x <;> simp [NativeValue.hasType] at h
      case none => simp [NativeValue.toVariant, fromVariant, VariantTy.beq_refl]
      case some y =>
        have hy := roundtrip t y h
        simp [NativeValue.toVariant, fromVariant, VariantTy.beq_refl, hy]
  | .vec t, x => by
      intro h
      cases x <;> simp [NativeValue.hasType] at h
      rename_i xs
      have hloop := decodeVecLoop_mapP (fromVariant t) (NativeValue.toVariant t) xs
        (fun y hy => roundtrip t y (NativeValueList.allPList_mem _ xs h y hy))
      simp [NativeValue.toVariant, fromVariant, VariantValue.isContainer,
        VariantValue.classify, VariantValue.childValues, hloop]
  | .hashMap kT vT, x => by
      intro h
      cases x <;> simp [NativeValue.hasType] at h
      rename_i es
      have hloop := decodeMapLoop_mapPairs (fromVariant kT) (fromVariant vT)
        (NativeValue.toVariant kT) (NativeValue.toVariant vT) es .nil
        (fun p hp =>
          ⟨roundtrip kT p.1 (NativePairList.allPPairs_mem _ _ es h.2.1 p hp).1,
            roundtrip vT p.2 (NativePairList.allPPairs_mem _ _ es h.2.1 p hp).2⟩)
        h.2.2 (fun p _ => rfl)
      simp [NativeValue.toVariant, fromVariant, VariantValue.isContainer,
        VariantValue.classify, VariantValue.childValues, hloop, NativePairList.append]
  | .bTreeMap kT vT, x => by
      intro h
      cases x <;> simp [NativeValue.hasType] at h
      rename_i es
      have hloop := decodeMapLoop_mapPairs (fromVariant kT) (fromVariant vT)
        (NativeValue.toVariant kT) (NativeValue.toVariant vT) es .nil
        (fun p hp =>
          ⟨roundtrip kT p.1 (NativePairList.allPPairs_mem _ _ es h.2.1 p hp).1,
            roundtrip vT p.2 (NativePairList.allPPairs_mem _ _ es h.2.1 p hp).2⟩)
        h.2.2 (fun p _ => rfl)
      simp [NativeValue.toVariant, fromVariant, VariantValue.isContainer,
        VariantValue.classify, VariantValue.childValues, hloop, NativePairList.append]
  | .dictEntry kT vT, x => by
      intro h
      cases x <;> simp [NativeValue.hasType] at h
      rename_i a b
      have hguard : (VariantValue.dictEntry (NativeValue.toVariant kT a)
          (NativeValue.toVariant vT b)).typeOf.isSubtypeOf
          (.dictEntry .anyBasic .any) = true := by
        simp [VariantValue.typeOf, VariantTy.isSubtypeOf, VariantTy.isSubtypeOf_any,
          VariantTy.isSubtypeOf_anyBasic, toVariant_typeOf kT a h.2.1, h.1]
      simp [NativeValue.toVariant, fromVariant, hguard, child_value_dictEntry_zero,
        child_value_dictEntry_one, roundtrip kT a h.2.1, roundtrip vT b h.2.2]
  | .tuple ts, x => by
      intro h
      cases x <;> simp [NativeValue.hasType] at h
      rename_i xs
      have hfields := roundtripFields ts xs
        (VariantValue.tuple (NativeValue.toVariantList ts xs)) 0 h
        (by simp [VariantValue.isContainer, VariantValue.classify])
        (by simp [VariantValue.childValues])
      simp [NativeValue.toVariant, fromVariant, VariantValue.typeOf,
        VariantTy.isSubtypeOf, hfields]
theorem roundtripFields :
    ∀ (ts : RustTyList) (xs : NativeValueList) (v : VariantValue) (i : Nat),
      NativeValue.hasTypes ts xs = true →
      v.isContainer = true →
      v.childValues.drop i = (NativeValue.toVariantList ts xs).toList →
      fromVariantFields ts v i = .ok (Option.some xs)
  | .nil, xs, v, i => by
      intro ht _ _
      cases xs with
      | nil => rfl
      | cons x rest => simp [NativeValue.hasTypes] at ht
  | .cons t ts2, xs, v, i => by
      intro ht hcont hdrop
      cases xs with
      | nil => simp [NativeValue.hasTypes] at ht
      | cons x rest =>
        simp [NativeValue.hasTypes] at ht
        obtain ⟨h1, h2⟩ := drop_eq_cons_facts _ _ _ _
          (by simpa [NativeValue.toVariantList, VariantValueList.toList] using hdrop)
        have hlt := get?_some_lt _ _ _ h1
        have htcv : v.try_child_value i = Option.some (NativeValue.toVariant t x) := by
          rw [VariantValue.try_child_value, if_pos (by simp [hcont, hlt])]
          exact h1
        have hx := roundtrip t x ht.1
        have hrest := roundtripFields ts2 rest v (i + 1) ht.2 hcont h2
        simp [fromVariantFields, htcv, hx, hrest]
end

/-- An `f64` bit pattern is a NaN: exponent field all ones with a nonzero
mantissa. -/
def f64IsNaN (bits : Nat) : Bool :=
  decide ((bits / 2 ^ 52) % 2 ^ 11 = 2 ^ 11 - 1 ∧ bits % 2 ^ 52 ≠ 0)

/-- An `f64` bit pattern is a (positive or negative) zero. -/
def f64IsZero (bits : Nat) : Bool :=
  decide (bits % 2 ^ 63 = 0)

mutual
/-- Rust `==` (`PartialEq`) on native values: structural, except that `f64`
follows IEEE-754 comparison — a NaN is unequal to everything (itself
included) and the two zeroes are equal.  `Variant` payloads compare with
`g_variant_equal` (content equality), so a NaN nested inside a boxed
variant still compares equal. -/
def NativeValue.rustEq : NativeValue → NativeValue → Bool
  | .u8 x, b => match b with | .u8 y => x == y | _ => false
  | .i16 x, b => match b with | .i16 y => x == y | _ => false
  | .u16 x, b => match b with | .u16 y => x == y | _ => false
  | .i32 x, b => match b with | .i32 y => x == y | _ => false
  | .u32 x, b => match b with | .u32 y => x == y | _ => false
  | .i64 x, b => match b with | .i64 y => x == y | _ => false
  | .u64 x, b => match b with | .u64 y => x == y | _ => false
  | .f64 x, b =>
    match b with
    | .f64 y => !f64IsNaN x && !f64IsNaN y && (x == y || (f64IsZero x && f64IsZero y))
    | _ => false
  | .bool x, b => match b with | .bool y => x == y | _ => false
  | .unit, b => match b with | .unit => true | _ => false
  | .string x, b => match b with | .string y => x == y | _ => false
  | .variant x, b => match b with | .variant y => x.beq y | _ => false
  | .none, b => match b with | .none => true | _ => false
  | .some x, b => match b with | .some y => x.rustEq y | _ => false
  | .vec x, b => match b with | .vec y => x.rustEqList y | _ => false
  | .map x, b => match b with | .map y => x.rustEqPairs y | _ => false
  | .dictEntry xk xv, b =>
    match b with | .dictEntry yk yv => xk.rustEq yk && xv.rustEq yv | _ => false
  | .tuple x, b => match b with | .tuple y => x.rustEqList y | _ => false
def NativeValueList.rustEqList : NativeValueList → NativeValueList → Bool
  | .nil, b => match b with | .nil => true | _ => false
  | .cons x xs, b =>
    match b with | .cons y ys => x.rustEq y && xs.rustEqList ys | _ => false
def NativePairList.rustEqPairs : NativePairList → NativePairList → Bool
  | .nil, b => match b with | .nil => true | _ => false
  | .cons xk xv xs, b =>
    match b with
    | .cons yk yv ys => xk.rustEq yk && xv.rustEq yv && xs.rustEqPairs ys
    | _ => false
end

mutual
/-- No NaN bit pattern occurs at an `f64` position of the value (boxed
`Variant` payloads excepted — those compare by content). -/
def NativeValue.noNaN : NativeValue → Bool
  | .f64 x => !f64IsNaN x
  | .some x => x.noNaN
  | .vec xs => xs.noNaNList
  | .map es => es.noNaNPairs
  | .dictEntry k v => k.noNaN && v.noNaN
  | .tuple xs => xs.noNaNList
  | _ => true
def NativeValueList.noNaNList : NativeValueList → Bool
  | .nil => true
  | .cons x xs => x.noNaN && xs.noNaNList
def NativePairList.noNaNPairs : NativePairList → Bool
  | .nil => true
  | .cons k v t => k.noNaN && v.noNaN && t.noNaNPairs
end

mutual
theorem NativeValue.rustEq_refl :
    ∀ x : NativeValue, x.noNaN = true → x.rustEq x = true
  | .u8 n => by intro _; simp [NativeValue.rustEq]
  | .i16 n => by intro _; simp [NativeValue.rustEq]
  | .u16 n => by intro _; simp [NativeValue.rustEq]
  | .i32 n => by intro _; simp [NativeValue.rustEq]
  | .u32 n => by intro _; simp [NativeValue.rustEq]
  | .i64 n => by intro _; simp [NativeValue.rustEq]
  | .u64 n => by intro _; simp [NativeValue.rustEq]
  | .f64 n => by
      intro h
      simp [NativeValue.noNaN] at h
      simp [NativeValue.rustEq, h]
  | .bool b => by intro _; simp [NativeValue.rustEq]
  | .unit => by intro _; simp [NativeValue.rustEq]
  | .string s => by intro _; simp [NativeValue.rustEq]
  | .variant v => by intro _; simp [NativeValue.rustEq, VariantValue.beqVal_iff]
  | .none => by intro _; simp [NativeValue.rustEq]
  | .some x => by
      intro h
      simp [NativeValue.noNaN] at h
      simp [NativeValue.rustEq, NativeValue.rustEq_refl x h]
  | .vec xs => by
      intro h
      simp [NativeValue.noNaN] at h
      simp [NativeValue.rustEq, NativeValueList.rustEqList_refl xs h]
  | .map es => by
      intro h
      simp [NativeValue.noNaN] at h
      simp [NativeValue.rustEq, NativePairList.rustEqPairs_refl es h]
  | .dictEntry k v => by
      intro h
      simp [NativeValue.noNaN] at h
      simp [NativeValue.rustEq, NativeValue.rustEq_refl k h.1,
        NativeValue.rustEq_refl v h.2]
  | .tuple xs => by
      intro h
      simp [NativeValue.noNaN] at h
      simp [NativeValue.rustEq, NativeValueList.rustEqList_refl xs h]
theorem NativeValueList.rustEqList_refl :
    ∀ xs : NativeValueList, xs.noNaNList = true → xs.rustEqList xs = true
  | .nil => by intro _; simp [NativeValueList.rustEqList]
  | .cons x xs => by
      intro h
      simp [NativeValueList.noNaNList] at h
      simp [NativeValueList.rustEqList, NativeValue.rustEq_refl x h.1,
        NativeValueList.rustEqList_refl xs h.2]
theorem NativePairList.rustEqPairs_refl :
    ∀ es : NativePairList, es.noNaNPairs = true → es.rustEqPairs es = true
  | .nil => by intro _; simp [NativePairList.rustEqPairs]
  | .cons k v t => by
      intro h
      simp [NativePairList.noNaNPairs] at h
      simp [NativePairList.rustEqPairs, NativeValue.rustEq_refl k h.1.1,
        NativeValue.rustEq_refl v h.1.2, NativePairList.rustEqPairs_refl t h.2]
end

/-- C6 counterexample: for the quiet-NaN `f64` value, the decode returns
`Some` of the same bit pattern, but Rust `==` on the value is false (NaN is
not equal to itself), so `from_variant(&v.to_variant()) == Some(v)` fails
at `v = f64::NAN`. -/
theorem c6_counterexample :
    fromVariant .f64 (NativeValue.toVariant .f64 (.f64 9221120237041090560)) =
      .ok (Option.some (.f64 9221120237041090560)) ∧
    NativeValue.rustEq (.f64 9221120237041090560) (.f64 9221120237041090560) = false := by
  constructor
  · decide
  · simp [NativeValue.rustEq, f64IsNaN]

/-- C6 (amended): for every native value `x` of a type `T` in the universe,
encoding and decoding returns `Ok(Some(x))` exactly (bit for bit, no
panic); moreover whenever `x` contains no `f64` NaN, Rust `==` on the
decoded value holds, i.e. `from_variant(&v.to_variant()) == Some(v)`.  (At
a NaN the decode still reproduces the bit pattern, but `==` is false, per
`c6_counterexample`.) -/
theorem c6_roundtrip (T : RustTy) (x : NativeValue)
    (h : NativeValue.hasType T x = true) :
    fromVariant T (NativeValue.toVariant T x) = .ok (Option.some x) ∧
    (NativeValue.noNaN x = true → NativeValue.rustEq x x = true) :=
  ⟨roundtrip T x h, NativeValue.rustEq_refl x⟩

/-- Witness for C6 at a concrete input: a `(String, Vec<u16>)` tuple value
round-trips exactly and compares equal to itself. -/
theorem c6_roundtrip_witness :
    fromVariant (.tuple (.cons .string (.cons (.vec .u16) .nil)))
        (NativeValue.toVariant (.tuple (.cons .string (.cons (.vec .u16) .nil)))
          (.tuple (.cons (.string "hi")
            (.cons (.vec (.cons (.u16 7) (.cons (.u16 8) .nil))) .nil)))) =
      .ok (Option.some (.tuple (.cons (.string "hi")
        (.cons (.vec (.cons (.u16 7) (.cons (.u16 8) .nil))) .nil)))) ∧
    (NativeValue.noNaN (.tuple (.cons (.string "hi")
        (.cons (.vec (.cons (.u16 7) (.cons (.u16 8) .nil))) .nil))) = true →
      NativeValue.rustEq
        (.tuple (.cons (.string "hi")
          (.cons (.vec (.cons (.u16 7) (.cons (.u16 8) .nil))) .nil)))
        (.tuple (.cons (.string "hi")
          (.cons (.vec (.cons (.u16 7) (.cons (.u16 8) .nil))) .nil))) = true) :=
  c6_roundtrip (.tuple (.cons .string (.cons (.vec .u16) .nil)))
    (.tuple (.cons (.string "hi")
      (.cons (.vec (.cons (.u16 7) (.cons (.u16 8) .nil))) .nil))) (by decide)

def leBytes : Nat → Nat → List Nat
  | 0, _ => []
  | w + 1, n => n % 256 :: leBytes w (n / 256)

def fromLE : List Nat → Nat
  | [] => 0
  | d :: ds => d + 256 * fromLE ds

/-- Reverse the `w` little-endian bytes of an unsigned `w`-byte pattern. -/
def bswap (w n : Nat) : Nat := fromLE (leBytes w n).reverse

theorem leBytes_length : ∀ (w n : Nat), (leBytes w n).length = w := by
  intro w
  induction w with
  | zero => intro n; simp [leBytes]
  | succ w ih => intro n; simp [leBytes, ih]

theorem leBytes_lt : ∀ (w n : Nat), ∀ d ∈ leBytes w n, d < 256 := by
  intro w
  induction w with
  | zero => intro n d hd; simp [leBytes] at hd
  | succ w ih =>
    intro n d hd
    rcases (by simpa [leBytes] using hd : d = n % 256 ∨ d ∈ leBytes w (n / 256)) with rfl | hm
    · exact Nat.mod_lt _ (by omega)
    · exact ih (n / 256) d hm

theorem fromLE_leBytes : ∀ (w n : Nat), n < 256 ^ w → fromLE (leBytes w n) = n := by
  intro w
  induction w with
  | zero => intro n h; simp [Nat.pow_zero] at h; simp [leBytes, fromLE, h]
  | succ w ih =>
    intro n h
    have hdiv : n / 256 < 256 ^ w := by
      rw [Nat.div_lt_iff_lt_mul (by omega)]
      calc n < 256 ^ (w + 1) := h
      _ = 256 ^ w * 256 := by ring
    simp [leBytes, fromLE, ih (n / 256) hdiv]
    omega

theorem leBytes_fromLE : ∀ ds : List Nat, (∀ d ∈ ds, d < 256) →
    leBytes ds.length (fromLE ds) = ds := by
  intro ds
  induction ds with
  | nil => intro _; simp [leBytes]
  | cons d ds ih =>
    intro h
    have hd : d < 256 := h d (by simp)
    have h1 : (d + 256 * fromLE ds) % 256 = d := by
      rw [Nat.add_mul_mod_self_left, Nat.mod_eq_of_lt hd]
    have h2 : (d + 256 * fromLE ds) / 256 = fromLE ds := by
      rw [Nat.add_mul_div_left _ _ (by omega), Nat.div_eq_of_lt hd]
      omega
    simp [leBytes, fromLE, h1, h2, ih (fun x hx => h x (by simp [hx]))]

theorem bswap_involution (w n : Nat) (h : n < 256 ^ w) : bswap w (bswap w n) = n := by
  have hlen : (leBytes w n).reverse.length = w := by simp [leBytes_length]
  have hlt : ∀ d ∈ (leBytes w n).reverse, d < 256 := by
    intro d hd
    exact leBytes_lt w n d (by simpa using hd)
  calc bswap w (bswap w n)
      = fromLE (leBytes w (fromLE (leBytes w n).reverse)).reverse := rfl
    _ = fromLE ((leBytes w n).reverse).reverse := by
        have hx := leBytes_fromLE (leBytes w n).reverse hlt
        rw [hlen] at hx
        rw [hx]
    _ = n := by rw [List.reverse_reverse, fromLE_leBytes w n h]

mutual
/-- Modelled from the spec: `Variant::byteswap` (`ffi::g_variant_byteswap`)
returns a value with every fixed-width scalar's byte order reversed,
recursively through containers (spec sect. 4.5); strings, booleans and single
bytes are unchanged, and signatures are preserved. -/
def VariantValue.byteswap : VariantValue → VariantValue
  | .bool b => .bool b
  | .byte n => .byte n
  | .int16 n => .int16 (bswap 2 n)
  | .uint16 n => .uint16 (bswap 2 n)
  | .int32 n => .int32 (bswap 4 n)
  | .uint32 n => .uint32 (bswap 4 n)
  | .int64 n => .int64 (bswap 8 n)
  | .uint64 n => .uint64 (bswap 8 n)
  | .double n => .double (bswap 8 n)
  | .string s => .string s
  | .objectPath s => .objectPath s
  | .signature s => .signature s
  | .array e cs => .array e cs.byteswapList
  | .tuple cs => .tuple cs.byteswapList
  | .dictEntry k v => .dictEntry k.byteswap v.byteswap
  | .maybeJust e c => .maybeJust e c.byteswap
  | .maybeNothing e => .maybeNothing e
  | .variant c => .variant c.byteswap
def VariantValueList.byteswapList : VariantValueList → VariantValueList
  | .nil => .nil
  | .cons h t => .cons h.byteswap t.byteswapList
end

/-- Modelled from the spec: `g_variant_equal`, the `PartialEq` of `Variant`
— two values are equal iff they have the same classification and identical
content (spec sect. 3), i.e. their value trees coincide. -/
def gVariantEqual (a b : VariantValue) : Bool := a.beq b

mutual
theorem VariantValue.byteswap_byteswap :
    ∀ v : VariantValue, v.wf = true → v.byteswap.byteswap = v
  | .bool b => by intro _; simp [VariantValue.byteswap]
  | .byte n => by intro _; simp [VariantValue.byteswap]
  | .int16 n => by
      intro h
      simp [VariantValue.wf] at h
      simp [VariantValue.byteswap, bswap_involution 2 n (by simpa using h)]
  | .uint16 n => by
      intro h
      simp [VariantValue.wf] at h
      simp [VariantValue.byteswap, bswap_involution 2 n (by simpa using h)]
  | .int32 n => by
      intro h
      simp [VariantValue.wf] at h
      simp [VariantValue.byteswap, bswap_involution 4 n (by simpa using h)]
  | .uint32 n => by
      intro h
      simp [VariantValue.wf] at h
      simp [VariantValue.byteswap, bswap_involution 4 n (by simpa using h)]
  | .int64 n => by
      intro h
      simp [VariantValue.wf] at h
      simp [VariantValue.byteswap, bswap_involution 8 n (by simpa using h)]
  | .uint64 n => by
      intro h
      simp [VariantValue.wf] at h
      simp [VariantValue.byteswap, bswap_involution 8 n (by simpa using h)]
  | .double n => by
      intro h
      simp [VariantValue.wf] at h
      simp [VariantValue.byteswap, bswap_involution 8 n (by simpa using h)]
  | .string s => by intro _; simp [VariantValue.byteswap]
  | .objectPath s => by intro _; simp [VariantValue.byteswap]
  | .signature s => by intro _; simp [VariantValue.byteswap]
  | .array e cs => by
      intro h
      simp [VariantValue.wf] at h
      simp [VariantValue.byteswap, VariantValueList.byteswapList_byteswapList cs h.2]
  | .tuple cs => by
      intro h
      simp [VariantValue.wf] at h
      simp [VariantValue.byteswap, VariantValueList.byteswapList_byteswapList cs h]
  | .dictEntry k v => by
      intro h
      simp [VariantValue.wf] at h
      simp [VariantValue.byteswap, VariantValue.byteswap_byteswap k h.1.2,
        VariantValue.byteswap_byteswap v h.2]
  | .maybeJust e c => by
      intro h
      simp [VariantValue.wf] at h
      simp [VariantValue.byteswap, VariantValue.byteswap_byteswap c h.2]
  | .maybeNothing e => by intro _; simp [VariantValue.byteswap]
  | .variant c => by
      intro h
      simp [VariantValue.wf] at h
      simp [VariantValue.byteswap, VariantValue.byteswap_byteswap c h]
theorem VariantValueList.byteswapList_byteswapList :
    ∀ cs : VariantValueList, cs.wfList = true →
      cs.byteswapList.byteswapList = cs
  | .nil => by intro _; simp [VariantValueList.byteswapList]
  | .cons h t => by
      intro hw
      simp [VariantValueList.wfList] at hw
      simp [VariantValueList.byteswapList, VariantValue.byteswap_byteswap h hw.1,
        VariantValueList.byteswapList_byteswapList t hw.2]
end

/-- C7: applying `byteswap` twice gives back a value equal (in the
`g_variant_equal` sense used by `Variant`'s `PartialEq`) to the original,
for every well-formed value, container or not. -/
theorem c7_byteswap_involution (v : VariantValue) (h : v.wf = true) :
    gVariantEqual (v.byteswap.byteswap) v = true := by
  rw [gVariantEqual, VariantValue.beqVal_iff]
  exact VariantValue.byteswap_byteswap v h

/-- Witness for C7 at concrete inputs: the double byteswap of `42u32` is
`42u32` again (and one byteswap gives `704643072`, as in the source's
`test_byteswap`); a container value with mixed scalar children also comes
back to itself. -/
theorem c7_byteswap_involution_witness :
    gVariantEqual ((VariantValue.uint32 42).byteswap.byteswap)
      (VariantValue.uint32 42) = true ∧
    (VariantValue.uint32 42).byteswap = .uint32 704643072 ∧
    gVariantEqual
      ((VariantValue.tuple (.cons (.uint16 513) (.cons (.string "s") .nil))).byteswap.byteswap)
      (VariantValue.tuple (.cons (.uint16 513) (.cons (.string "s") .nil))) = true :=
  ⟨c7_byteswap_involution (.uint32 42) (by decide), by decide,
    c7_byteswap_involution (.tuple (.cons (.uint16 513) (.cons (.string "s") .nil)))
      (by decide)⟩

mutual
/-- Modelled from the spec: the alignment of a serialized value of the
given signature (scalars at their natural size and alignment, containers at
the maximum of their members, spec sect. 6). -/
def VariantTy.alignment : VariantTy → Nat
  | .bool => 1
  | .byte => 1
  | .string => 1
  | .objectPath => 1
  | .signature => 1
  | .int16 => 2
  | .uint16 => 2
  | .int32 => 4
  | .uint32 => 4
  | .int64 => 8
  | .uint64 => 8
  | .double => 8
  | .variant => 8
  | .maybe t => t.alignment
  | .array t => t.alignment
  | .tuple ts => ts.alignmentList
  | .dictEntry k v => max k.alignment v.alignment
  | .anyTuple => 1
  | .any => 1
  | .anyBasic => 1
def VariantTyList.alignmentList : VariantTyList → Nat
  | .nil => 1
  | .cons h t => max h.alignment t.alignmentList
end

def alignUp (off a : Nat) : Nat := (off + a - 1) / a * a

mutual
/-- Modelled from the spec: the serialized size of a fixed-size signature
(`none` for variable-size signatures): scalars at their natural size,
tuples and dict entries by sequential aligned layout rounded up to their
alignment, the empty tuple one byte. -/
def VariantTy.fixedSize : VariantTy → Option Nat
  | .bool => some 1
  | .byte => some 1
  | .int16 => some 2
  | .uint16 => some 2
  | .int32 => some 4
  | .uint32 => some 4
  | .int64 => some 8
  | .uint64 => some 8
  | .double => some 8
  | .tuple ts =>
    match ts.fixedSizeList 0 with
    | some 0 => some 1
    | some s => some (alignUp s ts.alignmentList)
    | none => none
  | .dictEntry k v =>
    match k.fixedSize with
    | none => none
    | some sk =>
      match v.fixedSize with
      | none => none
      | some sv =>
        some (alignUp (alignUp sk v.alignment + sv) (max k.alignment v.alignment))
  | _ => none
def VariantTyList.fixedSizeList : VariantTyList → Nat → Option Nat
  | .nil, off => some off
  | .cons t rest, off =>
    match t.fixedSize with
    | some s => VariantTyList.fixedSizeList rest (alignUp off t.alignment + s)
    | none => none
end

def padTo (bs : List Nat) (a : Nat) : List Nat :=
  bs ++ List.replicate (alignUp bs.length a - bs.length) 0

def strBytes (s : String) : List Nat := s.toUTF8.toList.map (fun b => b.toNat)

/-- Modelled from the spec: the size of the offsets in an offset table —
the smallest of 1, 2, 4, 8 bytes such that every offset fits. -/
def offsetSize (total n : Nat) : Nat :=
  if total + n * 1 ≤ 255 then 1
  else if total + n * 2 ≤ 65535 then 2
  else if total + n * 4 ≤ 4294967295 then 4
  else 8

mutual
/-- Modelled from the spec (sect. 6, binary wire format): the canonical
(normal form) serialization of a value.  Little-endian scalars at natural
size; strings NUL-terminated; a maybe is empty or its child (with a
trailing zero byte for variable-size children); arrays of fixed-size
elements are a flat run, arrays of variable-size elements carry a trailing
end-offset table; tuples lay members at their alignment with a reversed
offset table for variable-size non-final members (the unit tuple is one
zero byte); a dict entry is a two-member structure with an end-of-key
offset; a variant is its child followed by `0x00` and the child's type
string. -/
def VariantValue.serialize : VariantValue → List Nat
  | .bool b => [if b then 1 else 0]
  | .byte n => [n % 256]
  | .int16 n => leBytes 2 n
  | .uint16 n => leBytes 2 n
  | .int32 n => leBytes 4 n
  | .uint32 n => leBytes 4 n
  | .int64 n => leBytes 8 n
  | .uint64 n => leBytes 8 n
  | .double n => leBytes 8 n
  | .string s => strBytes s ++ [0]
  | .objectPath s => strBytes s ++ [0]
  | .signature s => strBytes s ++ [0]
  | .maybeNothing _ => []
  | .maybeJust e c =>
    match e.fixedSize with
    | some _ => c.serialize
    | none => c.serialize ++ [0]
  | .array e cs =>
    match e.fixedSize with
    | some _ => cs.serializeConcat
    | none =>
      match VariantValueList.serializeVarAux e.alignment cs [] [] with
      | (body, offs) =>
        body ++ ((offs.map (leBytes (offsetSize body.length offs.length))).flatten)
  | .tuple cs =>
    match cs with
    | .nil => [0]
    | .cons _ _ =>
      match VariantValueList.serializeTupleAux cs [] [] with
      | (body, offs) =>
        match (VariantTy.tuple cs.typesOf).fixedSize with
        | some _ => padTo body cs.typesOf.alignmentList
        | none =>
          body ++ ((offs.reverse.map (leBytes (offsetSize body.length offs.length))).flatten)
  | .dictEntry k v =>
    match padTo k.serialize v.typeOf.alignment ++ v.serialize with
    | body =>
      match (VariantTy.dictEntry k.typeOf v.typeOf).fixedSize with
      | some _ => padTo body (max k.typeOf.alignment v.typeOf.alignment)
      | none =>
        body ++ leBytes (offsetSize body.length 1) k.serialize.length
  | .variant c => c.serialize ++ [0] ++ c.typeOf.chars.map Char.toNat
def VariantValueList.serializeConcat : VariantValueList → List Nat
  | .nil => []
  | .cons h t => h.serialize ++ t.serializeConcat
def VariantValueList.serializeVarAux (a : Nat) :
    VariantValueList → List Nat → List Nat → List Nat × List Nat
  | .nil, bytes, offs => (bytes, offs)
  | .cons h t, bytes, offs =>
    match padTo bytes a ++ h.serialize with
    | nb => VariantValueList.serializeVarAux a t nb (offs ++ [nb.length])
def VariantValueList.serializeTupleAux :
    VariantValueList → List Nat → List Nat → List Nat × List Nat
  | .nil, bytes, offs => (bytes, offs)
  | .cons h t, bytes, offs =>
    match padTo bytes h.typeOf.alignment ++ h.serialize with
    | nb =>
      match t, h.typeOf.fixedSize with
      | .nil, _ => VariantValueList.serializeTupleAux t nb offs
      | _, some _ => VariantValueList.serializeTupleAux t nb offs
      | _, none => VariantValueList.serializeTupleAux t nb (offs ++ [nb.length])
end

/-- The `Variant` handle: the immutable value together with the serialized
bytes backing this instance (the region `g_variant_get_data` exposes).
Instances built by the constructors in variant.rs are in normal form;
`from_data_with_type` can introduce a non-canonical backing. -/
structure Variant where
  val : VariantValue
  bytes : List Nat

/-- `Variant::data`: the serialized form of the instance. -/
def Variant.data (g : Variant) : List Nat := g.bytes

/-- `Variant::size` (`g_variant_get_size`): the byte length of `data()`. -/
def Variant.size (g : Variant) : Nat := g.bytes.length

/-- Modelled from the spec: `Variant::normal_form`
(`g_variant_get_normal_form`) returns a value equal to the input whose
backing bytes are the unique canonical layout of its content
(spec sect. 4.5). -/
def Variant.normal_form (g : Variant) : Variant :=
  ⟨g.val, g.val.serialize⟩

/-- `Variant`'s `PartialEq` (`g_variant_equal`): value equality. -/
def Variant.equal (a b : Variant) : Bool := gVariantEqual a.val b.val

/-- The error of `Variant::store` (`bool_error!("Provided slice is too
small")`). -/
inductive BoolError where
  | providedSliceTooSmall
  deriving DecidableEq

/-- `Variant::store`: reads the serialized size, fails if the slice is
shorter, otherwise copies the serialized bytes to the front of the slice
(`ffi::g_variant_store`) and returns the byte count.  The returned list is
the slice after the call. -/
def Variant.store (g : Variant) (data : List Nat) : Except BoolError Nat × List Nat :=
  let size := g.size
  if data.length < size then (.error .providedSliceTooSmall, data)
  else (.ok size, g.bytes ++ data.drop size)

/-- C8: `normal_form()` is idempotent — taking the normal form of a normal
form changes nothing: the results are equal as variants and even share the
same serialized bytes. -/
theorem c8_normal_form_idempotent (g : Variant) :
    Variant.equal (g.normal_form.normal_form) g.normal_form = true ∧
    (g.normal_form.normal_form).data = g.normal_form.data := by
  constructor
  · rw [Variant.equal, gVariantEqual, VariantValue.beqVal_iff]
    rfl
  · rfl

/-- C9: `store` fails on a too-small buffer, leaving it unwritten, and
otherwise copies exactly the serialized bytes to the front of the buffer —
returning `Ok(size())` — while the rest of the buffer keeps its old
contents and its length. -/
theorem c9_store_spec (g : Variant) (buf : List Nat) :
    (buf.length < g.size →
      g.store buf = (.error .providedSliceTooSmall, buf)) ∧
    (g.size ≤ buf.length →
      g.store buf = (.ok g.size, g.bytes ++ buf.drop g.size) ∧
      (g.bytes ++ buf.drop g.size).take g.size = g.bytes ∧
      (g.bytes ++ buf.drop g.size).length = buf.length) := by
  constructor
  · intro h
    simp [Variant.store, h]
  · intro h
    have hnl : ¬buf.length < g.size := by omega
    refine ⟨by simp [Variant.store, hnl], ?_, ?_⟩
    · have : g.size = g.bytes.length := rfl
      rw [this, List.take_left]
    · have hsz : g.size = g.bytes.length := rfl
      simp [Variant.size] at h
      simp [List.length_append, List.length_drop, hsz]
      omega

/-- Witness for C9 at concrete inputs: storing a one-byte variant into a
two-byte buffer writes the byte and returns 1; storing it into an empty
buffer fails and leaves the buffer untouched. -/
theorem c9_store_spec_witness :
    Variant.store ⟨.byte 7, [7]⟩ [9, 9] = (.ok 1, [7, 9]) ∧
    Variant.store ⟨.byte 7, [7]⟩ [] = (.error .providedSliceTooSmall, []) := by
  constructor
  · have h := (c9_store_spec ⟨.byte 7, [7]⟩ [9, 9]).2 (by decide)
    simpa using h.1
  · exact (c9_store_spec ⟨.byte 7, [7]⟩ []).1 (by decide)

/-- The closed `FixedSizeVariantType` set: the nine types with `unsafe
impl FixedSizeVariantType` in variant.rs (`u8`, `i16`, `u16`, `i32`, `u32`,
`i64`, `u64`, `f64`, `bool`). -/
def RustTy.isFixedSizeVariantType : RustTy → Bool
  | .u8 => true
  | .i16 => true
  | .u16 => true
  | .i32 => true
  | .u32 => true
  | .i64 => true
  | .u64 => true
  | .f64 => true
  | .bool => true
  | _ => false

/-- Modelled from the spec: the elementwise reading of the flat serialized
run that `ffi::g_variant_get_fixed_array` exposes — each fixed-size element
reinterpreted as the native scalar it stores (spec sect. 4.4). -/
def readFixedScalar (T : RustTy) (c : VariantValue) : NativeValue :=
  match T with
  | .u8 => match c with | .byte n => .u8 n | _ => .unit
  | .i16 => match c with | .int16 n => .i16 n | _ => .unit
  | .u16 => match c with | .uint16 n => .u16 n | _ => .unit
  | .i32 => match c with | .int32 n => .i32 n | _ => .unit
  | .u32 => match c with | .uint32 n => .u32 n | _ => .unit
  | .i64 => match c with | .int64 n => .i64 n | _ => .unit
  | .u64 => match c with | .uint64 n => .u64 n | _ => .unit
  | .f64 => match c with | .double n => .f64 n | _ => .unit
  | .bool => match c with | .bool b => .bool b | _ => .unit
  | _ => .unit

/-- `Variant::fixed_array::<T>`: errors with a `VariantTypeMismatchError`
unless the signature is exactly `T::static_variant_type().as_array()`; then
reads the element count, returns the empty slice through the explicit
zero-length branch, and otherwise the reinterpreted elements. -/
def VariantValue.fixed_array (T : RustTy) (v : VariantValue) :
    Except VariantTypeMismatchError (List NativeValue) :=
  let expected := VariantTy.array T.staticVariantType
  if (v.typeOf.beq expected) = false then
    .error ⟨v.typeOf, expected⟩
  else
    let n_elements := v.childValues.length
    if n_elements = 0 then .ok []
    else .ok (v.childValues.map (readFixedScalar T))

/-- C10: for every element type `T` in the closed `FixedSizeVariantType`
set, `fixed_array::<T>()` on a variant whose signature is exactly
array-of-`T` with zero elements returns `Ok` of the empty slice through the
dedicated zero-length branch (so no slice is built from the accessor's
pointer, which may be null in this case). -/
theorem c10_fixed_array_empty (T : RustTy) (v : VariantValue)
    (hT : T.isFixedSizeVariantType = true)
    (hty : v.typeOf = .array T.staticVariantType)
    (hempty : v.childValues = []) :
    VariantValue.fixed_array T v = .ok [] := by
  rw [VariantValue.fixed_array]
  simp [hty, VariantTy.beq_refl, hempty]

/-- Witness for C10 at a concrete input: the empty byte-array variant read
as `&[u8]` gives the empty slice. -/
theorem c10_fixed_array_empty_witness :
    VariantValue.fixed_array .u8 (VariantValue.array .byte .nil) = .ok [] :=
  c10_fixed_array_empty .u8 (VariantValue.array .byte .nil) (by decide) (by decide)
    (by decide)
